import Mathlib

/-!
Verification of the chain-reaction grid simulation engine.

This file gives a shallow embedding of the Rust sources `src/grid.rs` and
`src/game.rs` (the grid simulation engine and the game controller) and proves
the specified properties about them.

Modelling conventions:
* `Complex<i32>` points are embedded as pairs of `Int` (`Point`).  The pixel
  and coordinate arithmetic of the program stays far away from the `i32`
  boundaries, so no wrap-around is modelled.
* Rust's `i32` division truncates toward zero; it is embedded as `Int.tdiv`
  (Lean's `Int.tdiv` truncates toward zero as well).
* `u8` counters are embedded as `Nat`; `self.count -= 1` in `Cell::send`
  only runs when a marble was actually removed, so the counter never
  underflows in the program; `Nat` subtraction is used.
* A `Slots` array (`[Option<Marble>; 4]`) is embedded as `Fin 4 → Option
  Marble`; the three slot groups `slots[0..2]` are embedded as the three
  fields `residing`, `incoming`, `outgoing`, matching the accessor names
  `residing()`, `incoming()`, `outgoing()` of the source.
* The cell store `Vec<Cell>` (indexed by `idx p = p.re * dim.im + p.im`) is
  embedded as a total function `Point → Cell` together with the dimension;
  `Grid::cell`/`Grid::cell_mut` become function application and pointwise
  update.  Loops `for cell in self.cells.iter_mut()` walk the in-bounds
  coordinates in the `Vec` construction order (`cellsList`).
-/

set_option maxHeartbeats 1000000

namespace ChainReaction

/-- 2D integer point, embedding `num_complex::Complex<i32>` (`re`, `im`). -/
structure Point where
  re : Int
  im : Int
deriving DecidableEq, Repr

instance : Add Point := ⟨fun a b => ⟨a.re + b.re, a.im + b.im⟩⟩
instance : Sub Point := ⟨fun a b => ⟨a.re - b.re, a.im - b.im⟩⟩

theorem Point.add_def (a b : Point) : a + b = ⟨a.re + b.re, a.im + b.im⟩ := rfl

theorem Point.sub_def (a b : Point) : a - b = ⟨a.re - b.re, a.im - b.im⟩ := rfl

/-- Scalar multiplication `k * p` on points (`i32 * Complex<i32>`). -/
def Point.scale (k : Int) (p : Point) : Point := ⟨k * p.re, k * p.im⟩

/-- Point-times-scalar `p * k` (`Complex<i32> * i32`). -/
def Point.mulInt (p : Point) (k : Int) : Point := ⟨p.re * k, p.im * k⟩

/-- Componentwise truncating division `p / k` (`Complex<i32> / i32`). -/
def Point.divInt (p : Point) (k : Int) : Point := ⟨Int.tdiv p.re k, Int.tdiv p.im k⟩

/-- The four main directions East, South, West, North (`DIRECTIONS`). -/
def DIRECTIONS : Fin 4 → Point
  | 0 => ⟨1, 0⟩
  | 1 => ⟨0, 1⟩
  | 2 => ⟨-1, 0⟩
  | 3 => ⟨0, -1⟩

/-- Owner is a player index (`pub type Owner = usize`). -/
abbrev Owner := Nat

/-- A marble: absolute pixel position and owning player (`Marble`). -/
structure Marble where
  pos : Point
  owner : Owner
deriving DecidableEq, Repr

/-- Move one step towards `target`, with `steps` remaining steps afterwards
(`Marble::step`): `pos = target + ((pos - target) * steps) / (steps + 1)`. -/
def Marble.step (m : Marble) (target : Point) (steps : Int) : Marble :=
  { m with pos := target + ((m.pos - target).mulInt steps).divInt (steps + 1) }

/-- Simulation state (`game::State`): accepting input, or animating with a
number of remaining steps. -/
inductive State where
  | AcceptingInput : State
  | Animating : Int → State
deriving DecidableEq, Repr

/-- Neighbor flags computed by `Cell::new` from the coordinate and the grid
dimension. -/
def hasNeighborOf (coord dim : Point) : Fin 4 → Bool
  | 0 => decide (coord.re < dim.re - 1)
  | 1 => decide (coord.im < dim.im - 1)
  | 2 => decide (coord.re > 0)
  | 3 => decide (coord.im > 0)

/-- A grid cell (`Cell`): coordinate, owner, capacity (`neighbors`), marble
counter (`count`), neighbor flags, and the three slot groups. -/
structure Cell where
  coord : Point
  owner : Option Owner
  neighbors : Nat
  count : Nat
  has_neighbor : Fin 4 → Bool
  residing : Fin 4 → Option Marble
  incoming : Fin 4 → Option Marble
  outgoing : Fin 4 → Option Marble

namespace Cell

/-- Cell constructor (`Cell::new`). -/
def new (coord dim : Point) : Cell :=
  { coord := coord
    owner := none
    has_neighbor := hasNeighborOf coord dim
    residing := fun _ => none
    incoming := fun _ => none
    outgoing := fun _ => none
    neighbors := (List.finRange 4).countP (fun d => hasNeighborOf coord dim d)
    count := 0 }

/-- Fullness test (`Cell::full`): `count >= neighbors`. -/
def full (c : Cell) : Bool := decide (c.neighbors ≤ c.count)

/-- Pixel center of the cell, as computed in `Cell::add_marble` and
`Cell::step`: `coord * cellsize + (cellsize/2, cellsize/2)`. -/
def center (c : Cell) (cellsize : Int) : Point :=
  c.coord.mulInt cellsize + ⟨Int.tdiv cellsize 2, Int.tdiv cellsize 2⟩

/-- Placement loop of `Cell::add_marble`: put a fresh marble into the first
free residing slot whose direction has a neighbor (breaking after one). -/
def placeResiding (c : Cell) (owner : Owner) (cellsize : Int) :
    List (Fin 4) → Cell
  | [] => c
  | direction :: rest =>
    if !c.has_neighbor direction || (c.residing direction).isSome then
      placeResiding c owner cellsize rest
    else
      let marble : Marble :=
        ⟨c.center cellsize + Point.scale (Int.tdiv cellsize 4) (DIRECTIONS direction),
         owner⟩
      { c with residing := Function.update c.residing direction (some marble) }

/-- Promotion loop of `Cell::add_marble`: when the cell became full, take
every residing marble and move it to the outgoing slot of the same
direction. -/
def promoteResiding (c : Cell) : List (Fin 4) → Cell
  | [] => c
  | direction :: rest =>
    match c.residing direction with
    | some marble =>
      promoteResiding
        { c with residing := Function.update c.residing direction none
                 outgoing := Function.update c.outgoing direction (some marble) }
        rest
    | none => promoteResiding c rest

/-- Body of `Cell::add_marble` after the owner check: capacity check,
counter increment, placement, and promotion when full. -/
def addMarbleBody (c : Cell) (owner : Owner) (cellsize : Int) : Except Cell Cell :=
  if c.count = c.neighbors then .error c
  else
    let c1 := { c with count := c.count + 1 }
    let c2 := c1.placeResiding owner cellsize (List.finRange 4)
    .ok (if c2.full then c2.promoteResiding (List.finRange 4) else c2)

/-- Add a marble to the cell (`Cell::add_marble`).  The `error` value carries
the cell as left behind by the failed call (the `owner.get_or_insert` write
survives the capacity error path). -/
def add_marble (c : Cell) (owner : Owner) (cellsize : Int) : Except Cell Cell :=
  match c.owner with
  | some o => if o ≠ owner then .error c else addMarbleBody c owner cellsize
  | none => addMarbleBody { c with owner := some owner } owner cellsize

/-- Sending loop of `Cell::send`: take each outgoing marble, decrementing
`count` per removed marble. -/
def sendLoop : Cell × (Fin 4 → Option Marble) → List (Fin 4) →
    Cell × (Fin 4 → Option Marble)
  | acc, [] => acc
  | (c, result), idx :: rest =>
    let taken := c.outgoing idx
    let c1 := { c with outgoing := Function.update c.outgoing idx none
                       count := if taken.isSome then c.count - 1 else c.count }
    sendLoop (c1, Function.update result idx taken) rest

/-- Remove and return one marble from each direction that is to be sent
(`Cell::send`); clears the owner when the cell becomes empty. -/
def send (c : Cell) : Cell × (Fin 4 → Option Marble) :=
  let r := sendLoop (c, fun _ => none) (List.finRange 4)
  ({ r.1 with owner := if r.1.count = 0 then none else r.1.owner }, r.2)

/-- Receive one marble from a neighbor (`Cell::receive`). -/
def receive (c : Cell) (direction : Fin 4) (marble : Marble) : Cell :=
  { c with owner := some marble.owner
           incoming := Function.update c.incoming direction (some marble)
           count := c.count + 1 }

/-- Rotation preference order of `Cell::sort_received`. -/
def rotations : List (Fin 4) := [0, 1, 3, 2]

/-- First loop of the full branch of `Cell::sort_received`: move every
incoming marble into the outgoing slot of the same direction. -/
def drainIncomingToOutgoing (c : Cell) : List (Fin 4) → Cell
  | [] => c
  | direction :: rest =>
    drainIncomingToOutgoing
      { c with outgoing := Function.update c.outgoing direction (c.incoming direction)
               incoming := Function.update c.incoming direction none } rest

/-- Rotation loop of the full branch of `Cell::sort_received`: fill empty
outgoing slots with neighbors from residing, rotating. -/
def fillOutgoingFromResiding (c : Cell) : List (Fin 4 × Fin 4) → Cell
  | [] => c
  | (rotation, direction) :: rest =>
    if !c.has_neighbor direction || (c.outgoing direction).isSome then
      fillOutgoingFromResiding c rest
    else
      fillOutgoingFromResiding
        { c with outgoing := Function.update c.outgoing direction
                   (c.residing (direction + rotation))
                 residing := Function.update c.residing (direction + rotation) none }
        rest

/-- Rotation loop of the non-full branch of `Cell::sort_received`: sort
incoming marbles into free residing slots, rotating. -/
def fillResidingFromIncoming (c : Cell) : List (Fin 4 × Fin 4) → Cell
  | [] => c
  | (rotation, direction) :: rest =>
    if !c.has_neighbor direction || (c.residing direction).isSome then
      fillResidingFromIncoming c rest
    else
      fillResidingFromIncoming
        { c with residing := Function.update c.residing direction
                   (c.incoming (direction + rotation))
                 incoming := Function.update c.incoming (direction + rotation) none }
        rest

/-- Rotation/direction pairs walked by the nested loops of
`Cell::sort_received` (`for rotation in [0,1,3,2] { for direction in 0..4 }`). -/
def rotationPairs : List (Fin 4 × Fin 4) :=
  rotations.flatMap (fun rotation => (List.finRange 4).map (fun d => (rotation, d)))

/-- Sort freshly received marbles into outgoing or residing slots
(`Cell::sort_received`). -/
def sort_received (c : Cell) : Cell :=
  if (List.finRange 4).all (fun d => (c.incoming d).isNone) then c
  else if c.full then
    fillOutgoingFromResiding (drainIncomingToOutgoing c (List.finRange 4))
      rotationPairs
  else
    fillResidingFromIncoming c rotationPairs

/-- Animation step of a cell (`Cell::step`): interpolate the marble in every
slot one step closer to that slot's target position. -/
def step (c : Cell) (steps cellsize : Int) : Cell :=
  let target := fun d : Fin 4 =>
    c.center cellsize + Point.scale (Int.tdiv cellsize 4) (DIRECTIONS d)
  { c with
      residing := fun d => (c.residing d).map (fun m => m.step (target d) steps)
      incoming := fun d => (c.incoming d).map (fun m => m.step (target d) steps)
      outgoing := fun d => (c.outgoing d).map (fun m => m.step (target d) steps) }

end Cell

/-- Bounds test for a coordinate: the point denotes a cell of the `dim`-sized
grid (the index range of the cell `Vec`). -/
def inBounds (dim p : Point) : Prop :=
  0 ≤ p.re ∧ p.re < dim.re ∧ 0 ≤ p.im ∧ p.im < dim.im

instance (dim p : Point) : Decidable (inBounds dim p) := by
  unfold inBounds; infer_instance

/-- Flat index of a coordinate in the cell `Vec` (`Grid::idx`):
`p.re * dim.im + p.im`. -/
def gridIdx (dim p : Point) : Int := p.re * dim.im + p.im

/-- In-bounds coordinates in the construction order of the cell `Vec`
(`for x in 0..dim.re { for y in 0..dim.im }`), which is also the order of
`self.cells.iter()`. -/
def cellsList (dim : Point) : List Point :=
  (List.range dim.re.toNat).flatMap
    (fun x => (List.range dim.im.toNat).map (fun y => Point.mk (Int.ofNat x) (Int.ofNat y)))

/-- Coordinate enumeration of `PointIter`: reverse of the construction
order (both coordinates descending; `PointIter` yields `(dim.re-1,
dim.im-1)` down to `(0, 0)`).  Faithful for the positive dimensions the
program uses (`PointIter` misbehaves when a dimension is zero). -/
def pointIterList (dim : Point) : List Point := (cellsList dim).reverse

/-- The grid (`Grid`): dimension and the cell store.  The `Vec<Cell>` is
embedded as a total function from coordinates; only in-bounds points are
ever read or written by the embedded operations. -/
structure Grid where
  dim : Point
  cells : Point → Cell

namespace Grid

/-- Grid constructor (`Grid::new`): one fresh cell per coordinate. -/
def new (dim : Point) : Grid :=
  { dim := dim, cells := fun p => Cell.new p dim }

/-- Cell lookup (`Grid::cell`). -/
def cell (g : Grid) (p : Point) : Cell := g.cells p

/-- Cell update (the write-back through `Grid::cell_mut`). -/
def setCell (g : Grid) (p : Point) (c : Cell) : Grid :=
  { g with cells := Function.update g.cells p c }

/-- Ownership-commit phase of `Grid::spread`: for every cell with an owner,
reassign every held marble to that owner. -/
def assignOwners (g : Grid) : Grid :=
  (cellsList g.dim).foldl
    (fun g p =>
      match (g.cell p).owner with
      | none => g
      | some owner =>
        let c := g.cell p
        g.setCell p
          { c with
              residing := fun d => (c.residing d).map (fun m => { m with owner := owner })
              incoming := fun d => (c.incoming d).map (fun m => { m with owner := owner })
              outgoing := fun d => (c.outgoing d).map (fun m => { m with owner := owner }) })
    g

/-- Delivery loop inside `Grid::spread`: hand each sent marble to the
neighbor in its direction (`neighbor.receive((direction+2)%4, marble)`),
recording whether any marble moved. -/
def deliver (coord : Point) (sent : Fin 4 → Option Marble) :
    Grid × Bool → List (Fin 4) → Grid × Bool
  | acc, [] => acc
  | (g, moved), direction :: rest =>
    match sent direction with
    | none => deliver coord sent (g, moved) rest
    | some marble =>
      let neighbor := coord + DIRECTIONS direction
      deliver coord sent
        (g.setCell neighbor ((g.cell neighbor).receive (direction + 2) marble), true)
        rest

/-- Main loop of `Grid::spread` over the `PointIter` coordinates: each full
cell sends its outgoing marbles to its neighbors. -/
def spreadLoop : Grid → Bool → List Point → Grid × Bool
  | g, moved, [] => (g, moved)
  | g, moved, coord :: rest =>
    if (g.cell coord).full then
      let sent := (g.cell coord).send
      let g1 := g.setCell coord sent.1
      let acc := deliver coord sent.2 (g1, moved) (List.finRange 4)
      spreadLoop acc.1 acc.2 rest
    else
      spreadLoop g moved rest

/-- Post-movement phase of `Grid::spread`: `sort_received` on every cell. -/
def sortAll (g : Grid) : Grid :=
  (cellsList g.dim).foldl (fun g p => g.setCell p (g.cell p).sort_received) g

/-- Overflow propagation (`Grid::spread`): commit ownership, move marbles
out of full cells, and either settle (`AcceptingInput`) or start a new
animation cycle (`Animating 15`). -/
def spread (g : Grid) : Grid × State :=
  let g0 := g.assignOwners
  let r := spreadLoop g0 false (pointIterList g0.dim)
  if r.2 then (sortAll r.1, State.Animating 15)
  else (r.1, State.AcceptingInput)

/-- Try to add a marble at the given coordinates (`Grid::add_marble`).  The
`error` value carries the grid as left behind by the failed call. -/
def add_marble (g : Grid) (coord : Point) (owner : Owner) (cellsize : Int) :
    Except Grid (Grid × State) :=
  match (g.cell coord).add_marble owner cellsize with
  | .error c => .error (g.setCell coord c)
  | .ok c =>
    let g1 := g.setCell coord c
    if c.full then .ok g1.spread
    else .ok (g1, State.AcceptingInput)

/-- Perform one animation step (`Grid::step`). -/
def step (g : Grid) (state : State) (cellsize : Int) : Grid × State :=
  match state with
  | State.AcceptingInput => (g, state)
  | State.Animating steps =>
    let g1 := (cellsList g.dim).foldl
      (fun g p => g.setCell p ((g.cell p).step steps cellsize)) g
    if steps = 0 then g1.spread
    else (g1, State.Animating (steps - 1))

end Grid

/-- Color and state for each player (`game::Player`). -/
structure Player where
  started : Bool
  alive : Bool
  color : Nat × Nat × Nat
deriving DecidableEq, Repr

/-- Player constructor (`Player::new`). -/
def Player.new (red green blue : Nat) : Player :=
  { started := false, alive := true, color := (red, green, blue) }

/-- Check which players are no longer alive (`Grid::check_players`): mark
every started player dead, then revive (and mark started) every player that
owns a cell. -/
def Grid.check_players (g : Grid) (players : List Player) : List Player :=
  let players1 := players.map (fun p => if p.started then { p with alive := false } else p)
  (cellsList g.dim).foldl
    (fun ps p =>
      match (g.cell p).owner with
      | none => ps
      | some owner =>
        let pl := ps.getD owner (Player.new 0 0 0)
        ps.set owner { pl with started := true, alive := true })
    players1

/-- The game controller (`game::Game`).  This `game.rs` revision wires the
grid size and cell pixel size in from constants of its sibling modules;
they are carried as the `grid.dim` and `cellsize` fields here. -/
structure Game where
  players : List Player
  state : State
  cur_player : Owner
  selected : Point
  grid : Grid
  cellsize : Int

namespace Game

/-- Game constructor (`Game::new`): three players, player 0 to move,
accepting input, fresh grid, selection at the origin.  The cell pixel size
is 100 (the value the menu/configuration layer supplies). -/
def new (dim : Point) : Game :=
  { players := [Player.new 200 0 0, Player.new 0 150 0, Player.new 0 0 200]
    cur_player := 0
    state := State.AcceptingInput
    grid := Grid.new dim
    selected := ⟨0, 0⟩
    cellsize := 100 }

/-- Fueled embedding of the turn-advance loop of
`Game::next_player_if_accepting`: repeatedly step to `(cur + 1) % len` until
an alive player is found.  `players.length` steps of fuel visit every index
once; the Rust loop diverges when no player is alive (spec §9 open
question), which surfaces here as `none`. -/
def findAlive (players : List Player) : Nat → Nat → Option Nat
  | _, 0 => none
  | cur, fuel + 1 =>
    let nxt := (cur + 1) % players.length
    if (players.getD nxt (Player.new 0 0 0)).alive then some nxt
    else findAlive players nxt fuel

/-- Advance to the next alive player when accepting input
(`Game::next_player_if_accepting`).  In the diverging no-alive-player case
(unreachable in the program, see spec §9) the current player is kept. -/
def next_player_if_accepting (game : Game) : Game :=
  match game.state with
  | State.AcceptingInput =>
    { game with cur_player :=
        (findAlive game.players game.cur_player game.players.length).getD game.cur_player }
  | _ => game

/-- Handle a click at a grid coordinate (`Game::click`). -/
def click (game : Game) (p : Point) : Game :=
  let game := { game with selected := p }
  match game.state with
  | State.AcceptingInput =>
    let cur := game.cur_player
    let started := { game.players.getD cur (Player.new 0 0 0) with started := true }
    let game := { game with players := game.players.set cur started }
    match game.grid.add_marble p cur game.cellsize with
    | .ok (grid, state) =>
      next_player_if_accepting { game with grid := grid, state := state }
    | .error grid => { game with grid := grid }
  | _ => game

/-- Advance the animation by one frame (`Game::step`). -/
def step (game : Game) : Game :=
  match game.state with
  | State.AcceptingInput => game
  | _ =>
    let r := game.grid.step game.state game.cellsize
    let game := { game with grid := r.1, state := r.2 }
    let game := { game with players := game.grid.check_players game.players }
    next_player_if_accepting game

/-- Reachable game states: a fresh game for a given grid dimension, clicks
at in-bounds coordinates (the keyboard driver keeps the selection cursor
inside the grid), and animation steps. -/
inductive Reachable (dim : Point) : Game → Prop where
  | init : Reachable dim (Game.new dim)
  | click {g : Game} (p : Point) : Reachable dim g → inBounds dim p →
      Reachable dim (g.click p)
  | step {g : Game} : Reachable dim g → Reachable dim g.step

end Game

/-- Default player value used to state `getD` lookups. -/
def defaultPlayer : Player := Player.new 0 0 0

/-- Pointwise description of the cell-interpolation pass of `Grid::step`
(`for cell in self.cells.iter_mut() { cell.step(steps, cellsize) }`): every
in-bounds cell is stepped once. -/
def Grid.interpolated (g : Grid) (steps cellsize : Int) : Grid :=
  { dim := g.dim
    cells := fun p => if inBounds g.dim p then (g.cell p).step steps cellsize else g.cell p }

/-- Per-cell ownership-commit check: every marble of an owned cell already
carries the cell's owner (the state in which the ownership pass of
`Grid::spread` is a no-op). -/
def Cell.committed (c : Cell) : Bool :=
  match c.owner with
  | none => true
  | some o => (List.finRange 4).all (fun d =>
      ((c.residing d).all fun m => decide (m.owner = o)) &&
      ((c.incoming d).all fun m => decide (m.owner = o)) &&
      ((c.outgoing d).all fun m => decide (m.owner = o)))

/-- Iterated animation frames, used to drive concrete executions. -/
def Game.stepsN : Game → Nat → Game
  | g, 0 => g
  | g, n + 1 => Game.stepsN g.step n

/-- A concrete play on a 3×2 grid: three opening placements (players 0, 1
and 2) and a fourth placement by player 0 that overflows the corner (0,0),
sending one of its marbles into player 1's cell (1,0). -/
def playOverflow32 : Game :=
  ((((Game.new ⟨3, 2⟩).click ⟨0, 0⟩).click ⟨1, 0⟩).click ⟨2, 1⟩).click ⟨0, 0⟩

/-- The overflow play animated to its final frame (`Animating 0`). -/
def playOverflow32Last : Game := playOverflow32.stepsN 15

/-- The pending spread-loop result at the final animation frame of the
overflow play (its movement flag is `false`: the chain has settled). -/
def playOverflow32Loop : Grid × Bool :=
  Grid.spreadLoop ((playOverflow32Last.grid.interpolated 0 playOverflow32Last.cellsize).assignOwners)
    false
    (pointIterList ((playOverflow32Last.grid.interpolated 0 playOverflow32Last.cellsize).assignOwners).dim)

/-- A single opening placement by player 0 on a 2×2 grid (a settled state). -/
def settled22 : Game := (Game.new ⟨2, 2⟩).click ⟨0, 0⟩

/-- Player 0 places at (0,0) on a 2×2 grid; then player 1 clicks the same
cell, which is rejected with an ownership error. -/
def playOwnErr22 : Game := (((Game.new ⟨2, 2⟩).click ⟨0, 0⟩)).click ⟨0, 0⟩

/-- Player 0 places at (0,0) on a 3×2 grid. -/
def playFirst32 : Game := (Game.new ⟨3, 2⟩).click ⟨0, 0⟩

/-- Player 1 then clicks player 0's cell (0,0): an ownership error. -/
def playOwnErr32 : Game := playFirst32.click ⟨0, 0⟩

/-- A concrete cascade on a 2×2 grid whose second propagation tick makes
cell (1,0) receive marbles from two full neighbors in the same tick,
pushing its marble count above its capacity. -/
def playOvershoot22 : Game :=
  (((((((Game.new ⟨2, 2⟩).click ⟨0, 0⟩).click ⟨0, 0⟩).click ⟨0, 1⟩).click
    ⟨1, 0⟩).click ⟨1, 1⟩).click ⟨0, 1⟩).stepsN 16

/-- Shape invariant of a cell at coordinate `p` in a `dim`-sized grid:
the neighbor flags are the ones `Cell::new` computes there, and marbles
occupy slots (in any of the three groups) only in directions that have a
neighbor. -/
def cellShape (dim p : Point) (c : Cell) : Prop :=
  c.has_neighbor = hasNeighborOf p dim ∧
  ∀ d : Fin 4, c.has_neighbor d = false →
    c.residing d = none ∧ c.incoming d = none ∧ c.outgoing d = none

instance (dim p : Point) (c : Cell) : Decidable (cellShape dim p c) := by
  unfold cellShape
  infer_instance

/-- Number of occupied slots in one slot group. -/
def slotCount (s : Fin 4 → Option Marble) : Nat :=
  (List.finRange 4).countP (fun d => (s d).isSome)

/-- Number of marbles held by a cell (across its three slot groups). -/
def cellMarbles (c : Cell) : Nat :=
  slotCount c.residing + slotCount c.incoming + slotCount c.outgoing

/-- Total number of marbles on the grid (over the in-bounds cells). -/
def Grid.totalMarbles (dim : Point) (g : Grid) : Nat :=
  ((cellsList dim).map (fun p => cellMarbles (g.cell p))).sum

/-- Shape invariant over all in-bounds cells of a grid. -/
def gridShape (dim : Point) (g : Grid) : Prop :=
  ∀ p, inBounds dim p → cellShape dim p (g.cell p)

/-- The per-cell transformation of the ownership-commit phase of
`Grid::spread`. -/
def assignCell (c : Cell) : Cell :=
  match c.owner with
  | none => c
  | some owner =>
    { c with
        residing := fun d => (c.residing d).map (fun m => { m with owner := owner })
        incoming := fun d => (c.incoming d).map (fun m => { m with owner := owner })
        outgoing := fun d => (c.outgoing d).map (fun m => { m with owner := owner }) }

/-- A small concrete grid with a staged overflow: two placements by player 0
on the corner cell of a 2x2 board leave that cell full with both marbles
moved to its outgoing slots, ready to be spread. -/
def stagedGrid22 : Grid :=
  let g := Grid.new ⟨2, 2⟩
  match (g.cell ⟨0, 0⟩).add_marble 0 100 with
  | .error c => g.setCell ⟨0, 0⟩ c
  | .ok c =>
    match c.add_marble 0 100 with
    | .error c2 => g.setCell ⟨0, 0⟩ c2
    | .ok c2 => g.setCell ⟨0, 0⟩ c2

/-! ### Structural lemmas about the coordinate enumerations and the cell store -/

theorem mem_cellsList {dim p : Point} : p ∈ cellsList dim ↔ inBounds dim p := by
  constructor
  · intro h
    obtain ⟨x, hx, hp⟩ := List.mem_flatMap.mp h
    obtain ⟨y, hy, rfl⟩ := List.mem_map.mp hp
    rw [List.mem_range] at hx hy
    refine ⟨?_, ?_, ?_, ?_⟩ <;> simp only [Int.ofNat_eq_coe] <;> omega
  · rintro ⟨h1, h2, h3, h4⟩
    refine List.mem_flatMap.mpr ⟨p.re.toNat, List.mem_range.mpr (by omega), ?_⟩
    refine List.mem_map.mpr ⟨p.im.toNat, List.mem_range.mpr (by omega), ?_⟩
    obtain ⟨a, b⟩ := p
    rw [Point.mk.injEq]
    refine ⟨?_, ?_⟩ <;> simp only [Int.ofNat_eq_coe] at h1 h2 h3 h4 ⊢ <;> omega

theorem nodup_cellsList (dim : Point) : (cellsList dim).Nodup := by
  rw [cellsList, List.nodup_flatMap]
  constructor
  · intro x _
    refine List.Nodup.map ?_ (List.nodup_range _)
    intro a b h
    simpa using ((Point.mk.injEq ..).mp h).2
  · refine List.Pairwise.imp ?_ (List.nodup_range _)
    intro x y hxy
    simp only [Function.onFun, List.disjoint_left]
    rintro p hp hq
    simp only [List.mem_map, List.mem_range] at hp hq
    obtain ⟨a, _, rfl⟩ := hp
    obtain ⟨b, _, h⟩ := hq
    exact hxy (Eq.symm (by simpa using ((Point.mk.injEq ..).mp h).1))

theorem mem_pointIterList {dim p : Point} : p ∈ pointIterList dim ↔ inBounds dim p := by
  simp [pointIterList, mem_cellsList]

theorem nodup_pointIterList (dim : Point) : (pointIterList dim).Nodup := by
  simpa [pointIterList] using nodup_cellsList dim

namespace Grid

@[simp] theorem dim_setCell (g : Grid) (p : Point) (c : Cell) :
    (g.setCell p c).dim = g.dim := rfl

@[simp] theorem cell_setCell_self (g : Grid) (p : Point) (c : Cell) :
    (g.setCell p c).cell p = c := by
  simp [setCell, cell, Function.update]

theorem cell_setCell_ne (g : Grid) {p q : Point} (c : Cell) (h : q ≠ p) :
    (g.setCell p c).cell q = g.cell q := by
  simp [setCell, cell, Function.update, h]

theorem setCell_cell_self (g : Grid) (p : Point) : g.setCell p (g.cell p) = g := by
  cases g
  simp [setCell, cell, Function.update_eq_self]

/-- One-shot characterization of a per-cell fold: folding a pointwise
update over a duplicate-free list of coordinates rewrites exactly the cells
at those coordinates. -/
theorem foldl_mapCell_cell (f : Point → Cell → Cell) (g : Grid) (l : List Point)
    (hl : l.Nodup) (p : Point) :
    (l.foldl (fun g q => g.setCell q (f q (g.cell q))) g).cell p =
      if p ∈ l then f p (g.cell p) else g.cell p := by
  induction l generalizing g with
  | nil => simp
  | cons q rest ih =>
    have hq : q ∉ rest := (List.nodup_cons.mp hl).1
    have hrest := (List.nodup_cons.mp hl).2
    by_cases hpq : p = q
    · subst hpq
      simp only [List.foldl_cons, ih _ hrest, hq, if_neg, cell_setCell_self,
        List.mem_cons, true_or, if_true]
      simp [hq]
    · simp only [List.foldl_cons, ih _ hrest, cell_setCell_ne g _ hpq, List.mem_cons]
      simp [hpq]

theorem foldl_mapCell_dim (f : Point → Cell → Cell) (g : Grid) (l : List Point) :
    (l.foldl (fun g q => g.setCell q (f q (g.cell q))) g).dim = g.dim := by
  induction l generalizing g with
  | nil => rfl
  | cons q rest ih => simpa using ih _

theorem ext_cells {g1 g2 : Grid} (hdim : g1.dim = g2.dim)
    (hcells : ∀ p, g1.cell p = g2.cell p) : g1 = g2 := by
  cases g1
  cases g2
  simp only [mk.injEq]
  exact ⟨hdim, funext hcells⟩

end Grid

theorem getD_set_self {α : Type} (l : List α) (i : Nat) (v d : α)
    (h : i < l.length) : (l.set i v).getD i d = v := by
  rw [List.getD_eq_getElem?_getD, List.getElem?_set_self']
  rw [List.getElem?_eq_getElem h]
  rfl

theorem getD_set_ne {α : Type} (l : List α) {i j : Nat} (v d : α)
    (h : j ≠ i) : (l.set i v).getD j d = l.getD j d := by
  rw [List.getD_eq_getElem?_getD, List.getElem?_set_ne (fun he => h he.symm),
    List.getD_eq_getElem?_getD]

/-! ### The turn-advance rotation -/

/-- Fuel-indexed characterization of `findAlive`: if some index reachable
within `fuel` forward steps from `cur` (cyclically) is alive, the search
returns the first such index. -/
theorem findAlive_aux (players : List Player) :
    ∀ (fuel cur t : Nat), 1 ≤ t → t ≤ fuel →
      (players.getD ((cur + t) % players.length) defaultPlayer).alive = true →
      ∃ k, 1 ≤ k ∧ k ≤ fuel ∧
        Game.findAlive players cur fuel = some ((cur + k) % players.length) ∧
        (players.getD ((cur + k) % players.length) defaultPlayer).alive = true ∧
        ∀ j, 1 ≤ j → j < k →
          (players.getD ((cur + j) % players.length) defaultPlayer).alive = false := by
  intro fuel
  induction fuel with
  | zero => intro cur t ht1 ht2 _; omega
  | succ n ih =>
    intro cur t ht1 ht2 halive
    by_cases hnxt :
        (players.getD ((cur + 1) % players.length) defaultPlayer).alive = true
    · refine ⟨1, le_refl 1, by omega, ?_, hnxt, fun j h1 h2 => absurd h1 (by omega)⟩
      simp only [Game.findAlive]
      rw [if_pos]
      exact hnxt
    · have ht2' : 2 ≤ t := by
        rcases Nat.lt_or_ge t 2 with h | h
        · exfalso
          have : t = 1 := by omega
          rw [this] at halive
          exact hnxt halive
        · exact h
      have key : ((cur + 1) % players.length + (t - 1)) % players.length =
          (cur + t) % players.length := by
        rw [Nat.mod_add_mod]
        congr 1
        omega
      obtain ⟨k, hk1, hk2, hk3, hk4, hk5⟩ :=
        ih ((cur + 1) % players.length) (t - 1) (by omega) (by omega)
          (by rw [key]; exact halive)
      have shift : ∀ a : Nat, ((cur + 1) % players.length + a) % players.length =
          (cur + (a + 1)) % players.length := by
        intro a
        rw [Nat.mod_add_mod]
        congr 1
        omega
      refine ⟨k + 1, by omega, by omega, ?_, ?_, ?_⟩
      · have hstep : Game.findAlive players cur (n + 1) =
            Game.findAlive players ((cur + 1) % players.length) n := by
          simp only [Game.findAlive]
          rw [if_neg]
          exact hnxt
        rw [hstep, hk3, shift k]
      · rw [← shift k]
        exact hk4
      · intro j hj1 hj2
        rcases Nat.lt_or_ge j 2 with hj | hj
        · have : j = 1 := by omega
          rw [this]
          exact Bool.not_eq_true _ ▸ (by simpa using hnxt)
        · have := hk5 (j - 1) (by omega) (by omega)
          rw [shift (j - 1)] at this
          have hj' : j - 1 + 1 = j := by omega
          rw [hj'] at this
          exact this

/-- Full-fuel characterization of the turn rotation: with at least one
player alive, `findAlive` with `players.length` fuel (the embedding of the
unbounded Rust loop) finds the first alive index strictly after `cur` in
cyclic order. -/
theorem findAlive_spec (players : List Player) (cur : Nat)
    (h : ∃ i, i < players.length ∧ (players.getD i defaultPlayer).alive = true) :
    ∃ k, 1 ≤ k ∧ k ≤ players.length ∧
      Game.findAlive players cur players.length =
        some ((cur + k) % players.length) ∧
      (players.getD ((cur + k) % players.length) defaultPlayer).alive = true ∧
      ∀ j, 1 ≤ j → j < k →
        (players.getD ((cur + j) % players.length) defaultPlayer).alive = false := by
  obtain ⟨i, hi, halive⟩ := h
  have h0 : 0 < players.length := by omega
  set len := players.length with hlen
  have hc : cur % len < len := Nat.mod_lt _ h0
  set t := (i + len - (cur % len + 1)) % len + 1 with hdeft
  have ht1 : 1 ≤ t := by omega
  have ht2 : t ≤ len := by
    have : (i + len - (cur % len + 1)) % len < len := Nat.mod_lt _ h0
    omega
  have hmod : (cur + t) % len = i := by
    have e1 : (cur + t) % len = (cur % len + t) % len := (Nat.mod_add_mod ..).symm
    rcases le_or_lt (cur % len + 1) i with hci | hci
    · have e2 : i + len - (cur % len + 1) = (i - (cur % len + 1)) + len := by omega
      have e3 : (i + len - (cur % len + 1)) % len = i - (cur % len + 1) := by
        rw [e2, Nat.add_mod_right]
        exact Nat.mod_eq_of_lt (by omega)
      rw [e1]
      have : cur % len + t = i := by omega
      rw [this]
      exact Nat.mod_eq_of_lt (by omega)
    · have e3 : (i + len - (cur % len + 1)) % len = i + len - (cur % len + 1) :=
        Nat.mod_eq_of_lt (by omega)
      rw [e1]
      have : cur % len + t = len + i := by omega
      rw [this, Nat.add_mod_left]
      exact Nat.mod_eq_of_lt (by omega)
  exact findAlive_aux players len cur t ht1 ht2 (by rw [hmod]; exact halive)

/-- C9: for every player-record state with at least one alive player, the
turn-advance rotation of `Game::next_player_if_accepting` terminates
(returns a result within `players.length` probes) and the selected player
is alive; when input is being accepted, that player becomes the new current
player. -/
theorem claim_C9 (g : Game)
    (h : ∃ i, i < g.players.length ∧
      (g.players.getD i defaultPlayer).alive = true) :
    ∃ j, Game.findAlive g.players g.cur_player g.players.length = some j ∧
      j < g.players.length ∧
      (g.players.getD j defaultPlayer).alive = true ∧
      (g.state = State.AcceptingInput → g.next_player_if_accepting.cur_player = j) := by
  obtain ⟨k, _, _, h3, h4, _⟩ := findAlive_spec g.players g.cur_player h
  have h0 : 0 < g.players.length := by
    obtain ⟨i, hi, _⟩ := h
    omega
  refine ⟨_, h3, Nat.mod_lt _ h0, h4, fun hacc => ?_⟩
  simp only [Game.next_player_if_accepting, hacc, h3, Option.getD_some]

/-- Witness for C9 at a concrete reachable state: a fresh 2×2 game has an
alive player, and the rotation picks player 1. -/
theorem claim_C9_witness :
    ∃ j, Game.findAlive (Game.new ⟨2, 2⟩).players (Game.new ⟨2, 2⟩).cur_player
        (Game.new ⟨2, 2⟩).players.length = some j ∧
      j < (Game.new ⟨2, 2⟩).players.length ∧
      ((Game.new ⟨2, 2⟩).players.getD j defaultPlayer).alive = true ∧
      ((Game.new ⟨2, 2⟩).state = State.AcceptingInput →
        (Game.new ⟨2, 2⟩).next_player_if_accepting.cur_player = j) :=
  claim_C9 (Game.new ⟨2, 2⟩) ⟨0, by decide, by decide⟩

/-! ### Animation interpolation -/

/-- C8: one animation step moves the marble in every occupied slot to
exactly `target + (pos - target) * remaining_steps / (remaining_steps + 1)`
in exact integer arithmetic (truncating division), where `target` is the
slot's fixed target position; when `remaining_steps = 0` the position lands
exactly on the target. -/
theorem claim_C8 (c : Cell) (steps cellsize : Int) (d : Fin 4) (m : Marble) :
    ((c.residing d = some m → (c.step steps cellsize).residing d =
        some (m.step (c.center cellsize +
          Point.scale (Int.tdiv cellsize 4) (DIRECTIONS d)) steps)) ∧
     (c.incoming d = some m → (c.step steps cellsize).incoming d =
        some (m.step (c.center cellsize +
          Point.scale (Int.tdiv cellsize 4) (DIRECTIONS d)) steps)) ∧
     (c.outgoing d = some m → (c.step steps cellsize).outgoing d =
        some (m.step (c.center cellsize +
          Point.scale (Int.tdiv cellsize 4) (DIRECTIONS d)) steps))) ∧
    (∀ target : Point, (m.step target steps).pos =
      target + ((m.pos - target).mulInt steps).divInt (steps + 1)) ∧
    (∀ target : Point, steps = 0 → (m.step target steps).pos = target) := by
  refine ⟨⟨?_, ?_, ?_⟩, fun _ => rfl, ?_⟩
  · intro h
    simp [Cell.step, h]
  · intro h
    simp [Cell.step, h]
  · intro h
    simp [Cell.step, h]
  · intro target h
    subst h
    obtain ⟨tre, tim⟩ := target
    simp [Marble.step, Point.divInt, Point.mulInt, Point.add_def, Int.zero_tdiv]

theorem Grid.stepAll_eq (g : Grid) (steps cellsize : Int) :
    (cellsList g.dim).foldl (fun g p => g.setCell p ((g.cell p).step steps cellsize)) g =
      g.interpolated steps cellsize := by
  refine Grid.ext_cells ?_ ?_
  · exact Grid.foldl_mapCell_dim (fun _ c => c.step steps cellsize) g _
  · intro p
    have := Grid.foldl_mapCell_cell (fun _ c => c.step steps cellsize) g
      (cellsList g.dim) (nodup_cellsList g.dim) p
    rw [this]
    simp only [Grid.interpolated, Grid.cell, mem_cellsList]

theorem Grid.assignOwners_dim (g : Grid) : g.assignOwners.dim = g.dim := by
  rw [Grid.assignOwners]
  generalize cellsList g.dim = l
  induction l generalizing g with
  | nil => rfl
  | cons q rest ih =>
    simp only [List.foldl_cons]
    rw [ih]
    cases (g.cell q).owner <;> rfl

theorem Grid.deliver_dim (coord : Point) (sent : Fin 4 → Option Marble)
    (acc : Grid × Bool) (l : List (Fin 4)) :
    (Grid.deliver coord sent acc l).1.dim = acc.1.dim := by
  induction l generalizing acc with
  | nil => rfl
  | cons d rest ih =>
    obtain ⟨g, moved⟩ := acc
    cases h : sent d <;> simp only [Grid.deliver, h] <;> rw [ih] <;> rfl

theorem Grid.spreadLoop_dim (g : Grid) (moved : Bool) (l : List Point) :
    (Grid.spreadLoop g moved l).1.dim = g.dim := by
  induction l generalizing g moved with
  | nil => rfl
  | cons q rest ih =>
    by_cases h : (g.cell q).full
    · simp only [Grid.spreadLoop, h, if_true]
      rw [ih]
      rw [Grid.deliver_dim]
      rfl
    · simp only [Grid.spreadLoop, h, if_false]
      exact ih _ _

theorem Grid.sortAll_dim (g : Grid) : g.sortAll.dim = g.dim := by
  rw [Grid.sortAll]
  exact Grid.foldl_mapCell_dim (fun _ c => c.sort_received) g _

theorem Grid.spread_dim (g : Grid) : g.spread.1.dim = g.dim := by
  rw [Grid.spread]
  rcases h : Grid.spreadLoop g.assignOwners false (pointIterList g.assignOwners.dim)
    with ⟨g1, moved⟩
  have hl := Grid.spreadLoop_dim g.assignOwners false (pointIterList g.assignOwners.dim)
  rw [h, Grid.assignOwners_dim] at hl
  cases moved
  · simpa using hl
  · simpa [Grid.sortAll_dim] using hl

theorem Grid.step_accepting (g : Grid) (cellsize : Int) :
    g.step State.AcceptingInput cellsize = (g, State.AcceptingInput) := rfl

theorem Grid.step_animating (g : Grid) (n cellsize : Int) :
    g.step (State.Animating n) cellsize =
      if n = 0 then (g.interpolated n cellsize).spread
      else (g.interpolated n cellsize, State.Animating (n - 1)) := by
  simp only [Grid.step, Grid.stepAll_eq]

/-- C4: `Grid::step` on `AcceptingInput` is a no-op returning the state
unchanged; on `Animating n` it interpolates every cell one animation step
and then returns `spread()`'s result when `n = 0` and `Animating (n-1)`
otherwise; and when the spread triggered by stepping `Animating 0` moves no
marble, the resulting game state is `AcceptingInput` and the turn advances
to the next alive player (first alive index cyclically after the current
player, over the post-`check_players` records). -/
theorem claim_C4 :
    (∀ (g : Grid) (cellsize : Int),
      g.step State.AcceptingInput cellsize = (g, State.AcceptingInput)) ∧
    (∀ (g : Grid) (n cellsize : Int),
      g.step (State.Animating n) cellsize =
        if n = 0 then (g.interpolated n cellsize).spread
        else (g.interpolated n cellsize, State.Animating (n - 1))) ∧
    (∀ (game : Game) (g1 : Grid),
      game.state = State.Animating 0 →
      Grid.spreadLoop ((game.grid.interpolated 0 game.cellsize).assignOwners) false
          (pointIterList ((game.grid.interpolated 0 game.cellsize).assignOwners).dim) =
        (g1, false) →
      (∃ i, i < (g1.check_players game.players).length ∧
        ((g1.check_players game.players).getD i defaultPlayer).alive = true) →
      game.step.state = State.AcceptingInput ∧
      game.step.players = g1.check_players game.players ∧
      game.step.grid = g1 ∧
      ∃ k, 1 ≤ k ∧ k ≤ (g1.check_players game.players).length ∧
        game.step.cur_player =
          (game.cur_player + k) % (g1.check_players game.players).length ∧
        ((g1.check_players game.players).getD game.step.cur_player
          defaultPlayer).alive = true ∧
        ∀ j, 1 ≤ j → j < k →
          ((g1.check_players game.players).getD
            ((game.cur_player + j) % (g1.check_players game.players).length)
            defaultPlayer).alive = false) := by
  refine ⟨fun g cellsize => rfl, fun g n cellsize => Grid.step_animating g n cellsize, ?_⟩
  intro game g1 hstate hloop halive
  have hgridstep : game.grid.step (State.Animating 0) game.cellsize =
      (g1, State.AcceptingInput) := by
    rw [Grid.step_animating, if_pos rfl]
    simp only [Grid.spread]
    rw [hloop]
    simp
  have hstep : game.step = Game.next_player_if_accepting { game with grid := g1, state := State.AcceptingInput, players := Grid.check_players g1 game.players } := by
    simp only [Game.step, hstate, hgridstep]
  obtain ⟨k, hk1, hk2, hk3, hk4, hk5⟩ :=
    findAlive_spec (g1.check_players game.players) game.cur_player halive
  rw [hstep]
  refine ⟨rfl, rfl, rfl, k, hk1, hk2, ?_, ?_, hk5⟩
  · simp only [Game.next_player_if_accepting, hk3, Option.getD_some]
  · simp only [Game.next_player_if_accepting, hk3, Option.getD_some]
    exact hk4

/-! ### Player bookkeeping -/

theorem next_player_players (x : Game) :
    x.next_player_if_accepting.players = x.players := by
  unfold Game.next_player_if_accepting
  split <;> rfl

theorem next_player_grid (x : Game) :
    x.next_player_if_accepting.grid = x.grid := by
  unfold Game.next_player_if_accepting
  split <;> rfl

theorem next_player_state (x : Game) :
    x.next_player_if_accepting.state = x.state := by
  unfold Game.next_player_if_accepting
  split <;> rfl

theorem next_player_selected (x : Game) :
    x.next_player_if_accepting.selected = x.selected := by
  unfold Game.next_player_if_accepting
  split <;> rfl

/-- Characterization of the cell-scan loop of `Grid::check_players`: a
player index is marked started and alive exactly when some scanned cell
names it as owner. -/
theorem check_players_fold (g : Grid) (l : List Point) (ps : List Player) (i : Nat)
    (hi : i < ps.length) :
    (l.foldl (fun ps p =>
      match (g.cell p).owner with
      | none => ps
      | some owner =>
        let pl := ps.getD owner (Player.new 0 0 0)
        ps.set owner { pl with started := true, alive := true }) ps).getD i defaultPlayer =
    if ∃ p ∈ l, (g.cell p).owner = some i then
      { ps.getD i defaultPlayer with started := true, alive := true }
    else ps.getD i defaultPlayer := by
  induction l generalizing ps with
  | nil => simp
  | cons q rest ih =>
    simp only [List.foldl_cons]
    cases hq : (g.cell q).owner with
    | none =>
      simp only [hq]
      rw [ih ps hi]
      have hcond : (∃ p ∈ q :: rest, (g.cell p).owner = some i) ↔
          (∃ p ∈ rest, (g.cell p).owner = some i) := by
        constructor
        · rintro ⟨p, hp, hpo⟩
          rcases List.mem_cons.mp hp with rfl | hp'
          · rw [hq] at hpo
            cases hpo
          · exact ⟨p, hp', hpo⟩
        · rintro ⟨p, hp, hpo⟩
          exact ⟨p, List.mem_cons_of_mem _ hp, hpo⟩
      rw [if_congr hcond rfl rfl]
    | some o =>
      simp only [hq]
      by_cases hoi : o = i
      · subst hoi
        have hlen : o < (ps.set o { ps.getD o (Player.new 0 0 0) with
            started := true, alive := true }).length := by simpa using hi
        rw [ih _ hlen, getD_set_self ps o _ _ hi,
          if_pos (show ∃ p ∈ q :: rest, (g.cell p).owner = some o from
            ⟨q, List.mem_cons_self q rest, hq⟩)]
        by_cases hc : ∃ p ∈ rest, (g.cell p).owner = some o
        · rw [if_pos hc]
          rfl
        · rw [if_neg hc]
          rfl
      · have hlen : i < (ps.set o { ps.getD o (Player.new 0 0 0) with
            started := true, alive := true }).length := by simpa using hi
        rw [ih _ hlen, getD_set_ne ps _ defaultPlayer (fun h => hoi h.symm)]
        have hcond : (∃ p ∈ q :: rest, (g.cell p).owner = some i) ↔
            (∃ p ∈ rest, (g.cell p).owner = some i) := by
          constructor
          · rintro ⟨p, hp, hpo⟩
            rcases List.mem_cons.mp hp with rfl | hp'
            · rw [hq] at hpo
              exact absurd (Option.some.inj hpo) hoi
            · exact ⟨p, hp', hpo⟩
          · rintro ⟨p, hp, hpo⟩
            exact ⟨p, List.mem_cons_of_mem _ hp, hpo⟩
        rw [if_congr hcond rfl rfl]

/-- Witness for C8 at a concrete cell and marble. -/
theorem claim_C8_witness :
    ((((Game.new ⟨2, 2⟩).grid.cell ⟨0, 0⟩).residing 0 = some ⟨⟨75, 50⟩, 0⟩ →
      True) ∧ (0 : Int) = 0) ∧
    ∀ m0 : Marble, m0 = ⟨⟨75, 50⟩, 0⟩ →
      (m0.step ⟨50, 50⟩ 0).pos = ⟨50, 50⟩ := by
  refine ⟨⟨fun _ => trivial, rfl⟩, fun m0 hm => ?_⟩
  exact (claim_C8 ((Game.new ⟨2, 2⟩).grid.cell ⟨0, 0⟩) 0 100 0 m0).2.2 ⟨50, 50⟩ rfl

/-- C6: after `check_players` runs, a player marked started that owns no
cell is not alive, and every player owning at least one cell is alive and
started. -/
theorem claim_C6 (g : Grid) (players : List Player) (i : Nat)
    (hi : i < players.length) :
    (((g.check_players players).getD i defaultPlayer).started = true →
      (∀ p ∈ cellsList g.dim, (g.cell p).owner ≠ some i) →
      ((g.check_players players).getD i defaultPlayer).alive = false) ∧
    ((∃ p ∈ cellsList g.dim, (g.cell p).owner = some i) →
      ((g.check_players players).getD i defaultPlayer).alive = true ∧
      ((g.check_players players).getD i defaultPlayer).started = true) := by
  have hlen1 : i <
      (players.map (fun p => if p.started then { p with alive := false } else p)).length := by
    simpa using hi
  have hcp2 : (g.check_players players).getD i defaultPlayer =
      if ∃ p ∈ cellsList g.dim, (g.cell p).owner = some i then
        { (players.map (fun p => if p.started then { p with alive := false } else p)).getD
            i defaultPlayer with started := true, alive := true }
      else (players.map (fun p => if p.started then { p with alive := false } else p)).getD
            i defaultPlayer := by
    rw [Grid.check_players]
    exact check_players_fold g _ _ i hlen1
  have hmap : (players.map
        (fun p => if p.started then { p with alive := false } else p)).getD i defaultPlayer =
      if (players.getD i defaultPlayer).started then
        { players.getD i defaultPlayer with alive := false }
      else players.getD i defaultPlayer := by
    rw [List.getD_eq_getElem _ _ hlen1, List.getElem_map, List.getD_eq_getElem _ _ hi]
  constructor
  · intro hstart hnone
    have hcond : ¬ ∃ p ∈ cellsList g.dim, (g.cell p).owner = some i := by
      rintro ⟨p, hp, hpo⟩
      exact hnone p hp hpo
    rw [hcp2, if_neg hcond, hmap] at hstart ⊢
    by_cases hs : (players.getD i defaultPlayer).started = true
    · rw [if_pos hs]
    · rw [if_neg hs] at hstart
      exact absurd hstart hs
  · intro hex
    rw [hcp2, if_pos hex]
    exact ⟨rfl, rfl⟩

/-- Witness for C6: after the overflow play on the 3×2 grid, player 0 owns
cell (1,0), so `check_players` marks player 0 started and alive. -/
theorem claim_C6_witness :
    ((playOverflow32.grid.check_players playOverflow32.players).getD 0
      defaultPlayer).alive = true ∧
    ((playOverflow32.grid.check_players playOverflow32.players).getD 0
      defaultPlayer).started = true :=
  (claim_C6 playOverflow32.grid playOverflow32.players 0 (by decide)).2
    ⟨⟨1, 0⟩, by decide, by decide⟩

/-- C3 counterexample: player 0 claims (0,0) on a 2×2 grid; player 1 then
clicks the same cell.  The placement fails with an ownership error (the
turn is retained by player 1 and the cell still holds one marble owned by
player 0), yet player 1's `started` flag — `false` before the click — is
set to `true` by the failed attempt, because `Game::click` sets the flag
before calling `Grid::add_marble`. -/
theorem counterexample_C3 :
    ((Game.new ⟨2, 2⟩).click ⟨0, 0⟩).cur_player = 1 ∧
    ((((Game.new ⟨2, 2⟩).click ⟨0, 0⟩).players.getD 1 defaultPlayer).started = false) ∧
    ((((Game.new ⟨2, 2⟩).click ⟨0, 0⟩).grid.cell ⟨0, 0⟩).owner = some 0) ∧
    playOwnErr22.cur_player = 1 ∧
    (playOwnErr22.grid.cell ⟨0, 0⟩).count = 1 ∧
    (playOwnErr22.grid.cell ⟨0, 0⟩).owner = some 0 ∧
    ((playOwnErr22.players.getD 1 defaultPlayer).started = true) := by
  decide

/-- C3 (amended): `started` becomes true on the current player's first
placement attempt made while input is accepted, whether or not the
placement succeeds; a click never touches another player's `started` flag,
and all players start a fresh game with `started = false`. -/
theorem claim_C3 :
    (∀ (g : Game) (p : Point), g.state = State.AcceptingInput →
      g.cur_player < g.players.length →
      ((g.click p).players.getD g.cur_player defaultPlayer).started = true) ∧
    (∀ (g : Game) (p : Point) (j : Nat), j ≠ g.cur_player →
      (g.click p).players.getD j defaultPlayer = g.players.getD j defaultPlayer) ∧
    (∀ (dim : Point) (j : Nat),
      ((Game.new dim).players.getD j defaultPlayer).started = false) := by
  refine ⟨?_, ?_, ?_⟩
  · intro g p hst hlt
    simp only [Game.click, hst]
    cases hr : g.grid.add_marble p g.cur_player g.cellsize with
    | ok r =>
      obtain ⟨gr, st⟩ := r
      simp only
      rw [next_player_players]
      rw [getD_set_self _ _ _ _ hlt]
    | error ge =>
      simp only
      rw [getD_set_self _ _ _ _ hlt]
  · intro g p j hj
    cases hst : g.state with
    | AcceptingInput =>
      simp only [Game.click, hst]
      cases hr : g.grid.add_marble p g.cur_player g.cellsize with
      | ok r =>
        obtain ⟨gr, st⟩ := r
        simp only
        rw [next_player_players]
        exact getD_set_ne _ _ _ hj
      | error ge =>
        simp only
        exact getD_set_ne _ _ _ hj
    | Animating n =>
      simp only [Game.click, hst]
  · intro dim j
    rcases j with _ | _ | _ | n <;> rfl

/-- Witness for C3 at concrete games. -/
theorem claim_C3_witness :
    (((Game.new ⟨2, 2⟩).click ⟨1, 1⟩).players.getD 0 defaultPlayer).started = true ∧
    ((Game.new ⟨2, 2⟩).click ⟨1, 1⟩).players.getD 2 defaultPlayer =
      (Game.new ⟨2, 2⟩).players.getD 2 defaultPlayer ∧
    ((Game.new ⟨7, 7⟩).players.getD 1 defaultPlayer).started = false :=
  ⟨claim_C3.1 (Game.new ⟨2, 2⟩) ⟨1, 1⟩ rfl (by decide),
   claim_C3.2.1 (Game.new ⟨2, 2⟩) ⟨1, 1⟩ 2 (by decide),
   claim_C3.2.2 ⟨7, 7⟩ 1⟩

/-- C7 counterexample: player 1's click on player 0's cell (0,0) of the
3×2 grid is rejected, the turn is retained and the selection cursor does
not even change — yet the player records do change (player 1's `started`
flag flips), so more than the selection cursor changes on an ownership
error. -/
theorem counterexample_C7 :
    (playFirst32.grid.cell ⟨0, 0⟩).owner = some 0 ∧
    playFirst32.cur_player = 1 ∧
    playFirst32.selected = ⟨0, 0⟩ ∧
    playOwnErr32.selected = playFirst32.selected ∧
    playOwnErr32.cur_player = playFirst32.cur_player ∧
    playOwnErr32.players ≠ playFirst32.players := by
  decide

/-- C7 (amended): placing on a cell owned by a different player returns an
ownership error; the grid (the clicked cell included) is unchanged, the
turn does not advance, the simulation state is unchanged, and only the
selection cursor and the current player's `started` flag may change. -/
theorem claim_C7 (g : Game) (p : Point) (o : Owner)
    (hst : g.state = State.AcceptingInput)
    (ho : (g.grid.cell p).owner = some o)
    (hne : o ≠ g.cur_player) :
    g.grid.add_marble p g.cur_player g.cellsize = Except.error g.grid ∧
    (g.click p).grid = g.grid ∧
    (g.click p).cur_player = g.cur_player ∧
    (g.click p).state = g.state ∧
    (g.click p).selected = p ∧
    (g.click p).players = g.players.set g.cur_player
      { g.players.getD g.cur_player defaultPlayer with started := true } := by
  have hcell : (g.grid.cell p).add_marble g.cur_player g.cellsize =
      Except.error (g.grid.cell p) := by
    simp only [Cell.add_marble, ho]
    rw [if_pos hne]
  have hadd : g.grid.add_marble p g.cur_player g.cellsize = Except.error g.grid := by
    simp only [Grid.add_marble, hcell]
    rw [Grid.setCell_cell_self]
  refine ⟨hadd, ?_, ?_, ?_, ?_, ?_⟩ <;>
    simp only [Game.click, hst, hadd] <;> rfl

/-- Witness for C7: player 1 clicking player 0's corner on the 3×2 grid. -/
theorem claim_C7_witness :
    playFirst32.grid.add_marble ⟨0, 0⟩ playFirst32.cur_player playFirst32.cellsize =
      Except.error playFirst32.grid ∧
    (playFirst32.click ⟨0, 0⟩).grid = playFirst32.grid ∧
    (playFirst32.click ⟨0, 0⟩).cur_player = playFirst32.cur_player ∧
    (playFirst32.click ⟨0, 0⟩).state = playFirst32.state ∧
    (playFirst32.click ⟨0, 0⟩).selected = ⟨0, 0⟩ ∧
    (playFirst32.click ⟨0, 0⟩).players = playFirst32.players.set playFirst32.cur_player
      { playFirst32.players.getD playFirst32.cur_player defaultPlayer with started := true } :=
  claim_C7 playFirst32 ⟨0, 0⟩ 0 (by decide) (by decide) (by decide)


/-! ### Settled spreads -/

/-- Marbles of a committed cell carry the cell's owner. -/
theorem committed_marble_owner {c : Cell} (hc : c.committed = true) {o : Owner}
    (ho : c.owner = some o) (d : Fin 4) :
    (∀ m, c.residing d = some m → m.owner = o) ∧
    (∀ m, c.incoming d = some m → m.owner = o) ∧
    (∀ m, c.outgoing d = some m → m.owner = o) := by
  rw [Cell.committed, ho] at hc
  rw [List.all_eq_true] at hc
  have hd := hc d (List.mem_finRange d)
  simp only [Bool.and_eq_true] at hd
  obtain ⟨⟨h1, h2⟩, h3⟩ := hd
  refine ⟨fun m hm => ?_, fun m hm => ?_, fun m hm => ?_⟩
  · rw [hm] at h1
    simpa using h1
  · rw [hm] at h2
    simpa using h2
  · rw [hm] at h3
    simpa using h3

/-- The ownership-commit pass of `Grid::spread` is the identity when every
cell is already committed. -/
theorem assignOwners_committed (g : Grid)
    (hcom : ∀ p ∈ cellsList g.dim, (g.cell p).committed = true) :
    g.assignOwners = g := by
  rw [Grid.assignOwners]
  have key : ∀ (l : List Point), (∀ p ∈ l, (g.cell p).committed = true) →
      l.foldl
        (fun g' p =>
          match (g'.cell p).owner with
          | none => g'
          | some owner =>
            let c := g'.cell p
            g'.setCell p
              { c with
                  residing := fun d => (c.residing d).map (fun m => { m with owner := owner })
                  incoming := fun d => (c.incoming d).map (fun m => { m with owner := owner })
                  outgoing := fun d => (c.outgoing d).map (fun m => { m with owner := owner }) })
        g = g := by
    intro l
    induction l with
    | nil => intro _; rfl
    | cons q rest ih =>
      intro hl
      have hq := hl q (List.mem_cons_self q rest)
      simp only [List.foldl_cons]
      have hbody : (match (g.cell q).owner with
          | none => g
          | some owner =>
            let c := g.cell q
            g.setCell q
              { c with
                  residing := fun d => (c.residing d).map (fun m => { m with owner := owner })
                  incoming := fun d => (c.incoming d).map (fun m => { m with owner := owner })
                  outgoing := fun d => (c.outgoing d).map (fun m => { m with owner := owner }) }) = g := by
        cases ho : (g.cell q).owner with
        | none => rfl
        | some o =>
          have hmo := fun d => committed_marble_owner hq ho d
          have hres : (fun d => ((g.cell q).residing d).map (fun m => { m with owner := o })) =
              (g.cell q).residing := by
            funext d
            cases hm : (g.cell q).residing d with
            | none => rfl
            | some m =>
              have hmo' : m.owner = o := (hmo d).1 m hm
              simp only [Option.map]
              rw [← hmo']
          have hinc : (fun d => ((g.cell q).incoming d).map (fun m => { m with owner := o })) =
              (g.cell q).incoming := by
            funext d
            cases hm : (g.cell q).incoming d with
            | none => rfl
            | some m =>
              have hmo' : m.owner = o := (hmo d).2.1 m hm
              simp only [Option.map]
              rw [← hmo']
          have hout : (fun d => ((g.cell q).outgoing d).map (fun m => { m with owner := o })) =
              (g.cell q).outgoing := by
            funext d
            cases hm : (g.cell q).outgoing d with
            | none => rfl
            | some m =>
              have hmo' : m.owner = o := (hmo d).2.2 m hm
              simp only [Option.map]
              rw [← hmo']
          simp only
          rw [hres, hinc, hout]
          exact Grid.setCell_cell_self g q
      rw [hbody]
      exact ih (fun p hp => hl p (List.mem_cons_of_mem _ hp))
  exact key _ hcom

/-- The spread loop moves nothing when no listed cell is full. -/
theorem spreadLoop_settled (g : Grid) (moved : Bool) (l : List Point)
    (hfull : ∀ p ∈ l, (g.cell p).full = false) :
    Grid.spreadLoop g moved l = (g, moved) := by
  induction l with
  | nil => rfl
  | cons q rest ih =>
    have hq := hfull q (List.mem_cons_self q rest)
    simp only [Grid.spreadLoop, hq]
    exact ih (fun p hp => hfull p (List.mem_cons_of_mem _ hp))

/-- C5 counterexample: after the overflow play on the 3×2 grid, no cell is
full, yet `spread()` — while indeed returning `AcceptingInput` — rewrites
the ownership of the marble residing in slot 0 of cell (1,0) from player 1
to player 0 (the deferred ownership commit of the capture).  So `spread()`
on a state with no full cell is not mutation-free as claimed. -/
theorem counterexample_C5 :
    (∀ p ∈ cellsList playOverflow32.grid.dim, (playOverflow32.grid.cell p).full = false) ∧
    playOverflow32.grid.spread.2 = State.AcceptingInput ∧
    ((playOverflow32.grid.cell ⟨1, 0⟩).residing 0).map Marble.owner = some 1 ∧
    ((playOverflow32.grid.spread.1.cell ⟨1, 0⟩).residing 0).map Marble.owner = some 0 := by
  refine ⟨by decide, by decide, by decide, by decide⟩

/-- C5 (amended): `spread()` called on a grid with no full cell returns
`AcceptingInput` and — provided every marble already carries its cell's
owner, as holds in every settled state — changes nothing at all (no marble
positions, slots, counts or ownerships). -/
theorem claim_C5 (g : Grid)
    (hfull : ∀ p ∈ cellsList g.dim, (g.cell p).full = false)
    (hcom : ∀ p ∈ cellsList g.dim, (g.cell p).committed = true) :
    g.spread = (g, State.AcceptingInput) := by
  rw [Grid.spread, assignOwners_committed g hcom,
    spreadLoop_settled g false (pointIterList g.dim)
      (fun p hp => hfull p (mem_cellsList.mpr (mem_pointIterList.mp hp)))]
  rfl

/-- Witness for C5 at a settled reachable state (one placement made). -/
theorem claim_C5_witness :
    settled22.grid.spread = (settled22.grid, State.AcceptingInput) :=
  claim_C5 settled22.grid (by decide) (by decide)

/-! ### Reachable states and the capacity overshoot -/

theorem reachable_stepsN {dim : Point} {g : Game} (h : Game.Reachable dim g) :
    ∀ n, Game.Reachable dim (g.stepsN n) := by
  intro n
  induction n generalizing g with
  | zero => exact h
  | succ m ih => exact ih (Game.Reachable.step h)

theorem reachable_playOvershoot22 : Game.Reachable ⟨2, 2⟩ playOvershoot22 := by
  have h0 : Game.Reachable ⟨2, 2⟩ (Game.new ⟨2, 2⟩) := Game.Reachable.init
  have h1 := Game.Reachable.click (⟨0, 0⟩ : Point) h0 (by decide)
  have h2 := Game.Reachable.click (⟨0, 0⟩ : Point) h1 (by decide)
  have h3 := Game.Reachable.click (⟨0, 1⟩ : Point) h2 (by decide)
  have h4 := Game.Reachable.click (⟨1, 0⟩ : Point) h3 (by decide)
  have h5 := Game.Reachable.click (⟨1, 1⟩ : Point) h4 (by decide)
  have h6 := Game.Reachable.click (⟨0, 1⟩ : Point) h5 (by decide)
  exact reachable_stepsN h6 16

/-- C2 counterexample: a reachable state of a 2×2 game (six placements,
then one full animation cycle into the second propagation) in which cell
(1,0) holds 3 marbles against a capacity of 2: `full()` is true while
`occupied_count ≠ capacity`, refuting the claimed iff. -/
theorem counterexample_C2 :
    Game.Reachable ⟨2, 2⟩ playOvershoot22 ∧
    (playOvershoot22.grid.cell ⟨1, 0⟩).full = true ∧
    (playOvershoot22.grid.cell ⟨1, 0⟩).count = 3 ∧
    (playOvershoot22.grid.cell ⟨1, 0⟩).neighbors = 2 :=
  ⟨reachable_playOvershoot22, by decide, by decide, by decide⟩

/-- C2 (amended): `full()` holds iff `occupied_count ≥ capacity` (so
`occupied_count = capacity` implies `full()`), and the converse of the
original iff fails: a reachable game state contains a cell whose marble
count strictly exceeds its capacity while `full()` is true. -/
theorem claim_C2 :
    (∀ c : Cell, c.count = c.neighbors → c.full = true) ∧
    (∀ c : Cell, c.full = true ↔ c.neighbors ≤ c.count) ∧
    (∃ g : Game, Game.Reachable ⟨2, 2⟩ g ∧ ∃ p : Point,
      (g.grid.cell p).full = true ∧
      (g.grid.cell p).count ≠ (g.grid.cell p).neighbors) := by
  refine ⟨fun c h => ?_, fun c => ?_, ?_⟩
  · simp [Cell.full, h]
  · simp [Cell.full]
  · exact ⟨playOvershoot22, reachable_playOvershoot22,
      ⟨1, 0⟩, by decide, by decide⟩

/-- Witness for C2: the overshot cell of the reachable state is full. -/
theorem claim_C2_witness : (playOvershoot22.grid.cell ⟨1, 0⟩).full = true :=
  (claim_C2.2.1 (playOvershoot22.grid.cell ⟨1, 0⟩)).mpr (by decide)

/-- Witness for C4 part 3: the overflow play at its final animation frame;
stepping it settles the chain and hands the turn to an alive player. -/
theorem claim_C4_witness :
    playOverflow32Last.state = State.Animating 0 ∧
    playOverflow32Last.step.state = State.AcceptingInput ∧
    ((playOverflow32Loop.1.check_players playOverflow32Last.players).getD
      playOverflow32Last.step.cur_player defaultPlayer).alive = true := by
  have h := claim_C4.2.2 playOverflow32Last playOverflow32Loop.1 (by decide)
    (Prod.ext_iff.mpr ⟨rfl, by decide⟩) ⟨0, by decide, by decide⟩
  obtain ⟨h1, _, _, k, _, _, _, h4, _⟩ := h
  exact ⟨by decide, h1, h4⟩


/-! ### Direction geometry and the send operation -/

theorem Point.ext_re_im {a b : Point} (h1 : a.re = b.re) (h2 : a.im = b.im) : a = b := by
  cases a
  cases b
  simp_all

theorem hasNeighborOf_iff {dim p : Point} (hp : inBounds dim p) (d : Fin 4) :
    hasNeighborOf p dim d = true ↔ inBounds dim (p + DIRECTIONS d) := by
  obtain ⟨h1, h2, h3, h4⟩ := hp
  fin_cases d <;>
    simp [hasNeighborOf, DIRECTIONS, inBounds, Point.add_def] <;> omega

theorem hasNeighbor_inBounds {dim p : Point} (hp : inBounds dim p) {d : Fin 4}
    (h : hasNeighborOf p dim d = true) : inBounds dim (p + DIRECTIONS d) :=
  (hasNeighborOf_iff hp d).mp h

theorem add_dir_opp (p : Point) (d : Fin 4) :
    p + DIRECTIONS d + DIRECTIONS (d + 2) = p := by
  obtain ⟨a, b⟩ := p
  fin_cases d <;> simp [DIRECTIONS, Point.add_def]

theorem dir_target_inj (p : Point) {d d' : Fin 4}
    (h : p + DIRECTIONS d = p + DIRECTIONS d') : d = d' := by
  have h1 := congrArg Point.re h
  have h2 := congrArg Point.im h
  simp only [Point.add_def] at h1 h2
  have hdir : DIRECTIONS d = DIRECTIONS d' :=
    Point.ext_re_im (by omega) (by omega)
  revert hdir
  have key : ∀ (x y : Fin 4), DIRECTIONS x = DIRECTIONS y → x = y := by decide
  exact key d d'

/-- Pointwise characterization of `Cell::send`'s taking loop over a
duplicate-free direction list. -/
theorem sendLoop_spec (l : List (Fin 4)) : ∀ (c : Cell) (res : Fin 4 → Option Marble),
    l.Nodup →
    ((Cell.sendLoop (c, res) l).1.residing = c.residing ∧
     (Cell.sendLoop (c, res) l).1.incoming = c.incoming ∧
     (Cell.sendLoop (c, res) l).1.coord = c.coord ∧
     (Cell.sendLoop (c, res) l).1.has_neighbor = c.has_neighbor ∧
     (Cell.sendLoop (c, res) l).1.neighbors = c.neighbors ∧
     (Cell.sendLoop (c, res) l).1.owner = c.owner) ∧
    (∀ d, (Cell.sendLoop (c, res) l).1.outgoing d = if d ∈ l then none else c.outgoing d) ∧
    (∀ d, (Cell.sendLoop (c, res) l).2 d = if d ∈ l then c.outgoing d else res d) := by
  induction l with
  | nil =>
    intro c res _
    refine ⟨⟨rfl, rfl, rfl, rfl, rfl, rfl⟩, fun d => ?_, fun d => ?_⟩ <;>
      simp [Cell.sendLoop]
  | cons d0 rest ih =>
    intro c res hl
    have hd0 : d0 ∉ rest := (List.nodup_cons.mp hl).1
    have hrest := (List.nodup_cons.mp hl).2
    simp only [Cell.sendLoop]
    set c1 : Cell := { c with outgoing := Function.update c.outgoing d0 none
                              count := if (c.outgoing d0).isSome then c.count - 1
                                       else c.count } with hc1
    obtain ⟨⟨e1, e2, e3, e4, e5, e6⟩, hout, hres⟩ :=
      ih c1 (Function.update res d0 (c.outgoing d0)) hrest
    refine ⟨⟨by rw [e1], by rw [e2], by rw [e3], by rw [e4], by rw [e5], by rw [e6]⟩,
      fun d => ?_, fun d => ?_⟩
    · rw [hout d]
      by_cases hdm : d ∈ rest
      · simp [hdm]
      · simp only [hdm, if_false]
        by_cases hdd : d = d0
        · subst hdd
          simp [hc1, List.mem_cons]
        · simp [hc1, Function.update, hdd, List.mem_cons, hdm]
    · rw [hres d]
      by_cases hdm : d ∈ rest
      · have hne : d ≠ d0 := fun he => hd0 (he ▸ hdm)
        simp [hdm, hc1, Function.update, hne]
      · simp only [hdm, if_false]
        by_cases hdd : d = d0
        · subst hdd
          simp [Function.update, List.mem_cons]
        · simp [Function.update, hdd, List.mem_cons, hdm]

/-- Field characterization of `Cell::send`. -/
theorem send_spec (c : Cell) :
    (c.send.1.residing = c.residing ∧
     c.send.1.incoming = c.incoming ∧
     c.send.1.coord = c.coord ∧
     c.send.1.has_neighbor = c.has_neighbor ∧
     c.send.1.neighbors = c.neighbors) ∧
    (∀ d, c.send.1.outgoing d = none) ∧
    (∀ d, c.send.2 d = c.outgoing d) := by
  obtain ⟨⟨e1, e2, e3, e4, e5, _⟩, hout, hres⟩ :=
    sendLoop_spec (List.finRange 4) c (fun _ => none) (List.nodup_finRange 4)
  rw [Cell.send]
  refine ⟨⟨e1, e2, e3, e4, e5⟩, fun d => ?_, fun d => ?_⟩
  · rw [hout d, if_pos (List.mem_finRange d)]
  · rw [hres d, if_pos (List.mem_finRange d)]


/-! ### Shape preservation by the cell operations -/

theorem receive_shape {dim p : Point} {c : Cell} (h : cellShape dim p c)
    {d : Fin 4} (hd : hasNeighborOf p dim d = true) (m : Marble) :
    cellShape dim p (c.receive d m) := by
  obtain ⟨hflags, hok⟩ := h
  refine ⟨hflags, fun dd hdd => ?_⟩
  have hdd' : c.has_neighbor dd = false := hdd
  obtain ⟨r1, r2, r3⟩ := hok dd hdd'
  refine ⟨r1, ?_, r3⟩
  show Function.update c.incoming d (some m) dd = none
  by_cases hde : dd = d
  · exfalso
    rw [hde, hflags, hd] at hdd'
    cases hdd'
  · rw [Function.update_noteq hde]
    exact r2

theorem placeResiding_shape {dim p : Point} (o : Owner) (cs : Int) :
    ∀ (l : List (Fin 4)) (c : Cell), cellShape dim p c →
      cellShape dim p (c.placeResiding o cs l) := by
  intro l
  induction l with
  | nil => intro c h; exact h
  | cons d rest ih =>
    intro c h
    rw [Cell.placeResiding]
    by_cases hguard : (!c.has_neighbor d || (c.residing d).isSome) = true
    · rw [if_pos hguard]
      exact ih c h
    · rw [if_neg hguard]
      simp only [Bool.or_eq_true, Bool.not_eq_true', not_or] at hguard
      obtain ⟨h1, h2⟩ := hguard
      obtain ⟨hflags, hok⟩ := h
      refine ⟨hflags, fun dd hdd => ?_⟩
      have hdd' : c.has_neighbor dd = false := hdd
      obtain ⟨r1, r2, r3⟩ := hok dd hdd'
      refine ⟨?_, r2, r3⟩
      have hne : dd ≠ d := fun he => h1 (he ▸ hdd')
      show Function.update c.residing d _ dd = none
      rw [Function.update_noteq hne]
      exact r1

theorem promoteResiding_shape {dim p : Point} :
    ∀ (l : List (Fin 4)) (c : Cell), cellShape dim p c →
      cellShape dim p (c.promoteResiding l) := by
  intro l
  induction l with
  | nil => intro c h; exact h
  | cons d rest ih =>
    intro c h
    rw [Cell.promoteResiding]
    cases hm : c.residing d with
    | none => exact ih c h
    | some marble =>
      refine ih _ ?_
      obtain ⟨hflags, hok⟩ := h
      have hnb : c.has_neighbor d = true := by
        by_cases hb : c.has_neighbor d = true
        · exact hb
        · exfalso
          have := (hok d (by simpa using hb)).1
          rw [hm] at this
          cases this
      refine ⟨hflags, fun dd hdd => ?_⟩
      have hdd' : c.has_neighbor dd = false := hdd
      obtain ⟨r1, r2, r3⟩ := hok dd hdd'
      have hne : dd ≠ d := fun he => by rw [he, hnb] at hdd'; cases hdd' 
      refine ⟨?_, r2, ?_⟩
      · show Function.update c.residing d none dd = none
        rw [Function.update_noteq hne]
        exact r1
      · show Function.update c.outgoing d (some marble) dd = none
        rw [Function.update_noteq hne]
        exact r3

theorem addMarbleBody_shape {dim p : Point} {c : Cell} (h : cellShape dim p c)
    (o : Owner) (cs : Int) (c' : Cell)
    (hc' : Cell.addMarbleBody c o cs = Except.ok c' ∨
      Cell.addMarbleBody c o cs = Except.error c') :
    cellShape dim p c' := by
  rw [Cell.addMarbleBody] at hc'
  by_cases hcnt : c.count = c.neighbors
  · rw [if_pos hcnt] at hc'
    rcases hc' with h1 | h1
    · cases h1
    · cases h1
      exact h
  · rw [if_neg hcnt] at hc'
    rcases hc' with h1 | h1
    · have hstep : cellShape dim p
          (Cell.placeResiding { c with count := c.count + 1 } o cs (List.finRange 4)) :=
        placeResiding_shape o cs _ _ ⟨h.1, h.2⟩
      have := Except.ok.inj h1
      subst this
      by_cases hful :
          (Cell.placeResiding { c with count := c.count + 1 } o cs (List.finRange 4)).full = true
      · rw [if_pos hful]
        exact promoteResiding_shape _ _ hstep
      · rw [if_neg hful]
        exact hstep
    · cases h1

theorem add_marble_shape {dim p : Point} {c : Cell} (h : cellShape dim p c)
    (o : Owner) (cs : Int) (c' : Cell)
    (hc' : Cell.add_marble c o cs = Except.ok c' ∨
      Cell.add_marble c o cs = Except.error c') :
    cellShape dim p c' := by
  cases ho : c.owner with
  | some o0 =>
    simp only [Cell.add_marble, ho] at hc'
    by_cases hne : o0 ≠ o
    · rw [if_pos hne] at hc'
      rcases hc' with h1 | h1
      · cases h1
      · cases h1
        exact h
    · rw [if_neg hne] at hc'
      exact addMarbleBody_shape h o cs c' hc'
  | none =>
    simp only [Cell.add_marble, ho] at hc'
    have hb : cellShape dim p ({ c with owner := some o } : Cell) := ⟨h.1, h.2⟩
    exact addMarbleBody_shape hb o cs c' hc'

theorem cellStep_shape {dim p : Point} {c : Cell} (h : cellShape dim p c)
    (steps cs : Int) : cellShape dim p (c.step steps cs) := by
  obtain ⟨hflags, hok⟩ := h
  refine ⟨hflags, fun dd hdd => ?_⟩
  obtain ⟨r1, r2, r3⟩ := hok dd hdd
  refine ⟨?_, ?_, ?_⟩ <;> simp [Cell.step, r1, r2, r3]

theorem drainIncomingToOutgoing_shape {dim p : Point} :
    ∀ (l : List (Fin 4)) (c : Cell), cellShape dim p c →
      cellShape dim p (c.drainIncomingToOutgoing l) := by
  intro l
  induction l with
  | nil => intro c h; exact h
  | cons d rest ih =>
    intro c h
    rw [Cell.drainIncomingToOutgoing]
    refine ih _ ?_
    obtain ⟨hflags, hok⟩ := h
    refine ⟨hflags, fun dd hdd => ?_⟩
    obtain ⟨r1, r2, r3⟩ := hok dd hdd
    refine ⟨r1, ?_, ?_⟩
    · show Function.update c.incoming d none dd = none
      by_cases hde : dd = d
      · rw [hde, Function.update_same]
      · rw [Function.update_noteq hde]
        exact r2
    · show Function.update c.outgoing d (c.incoming d) dd = none
      by_cases hde : dd = d
      · rw [hde, Function.update_same]
        rw [← hde]
        exact r2
      · rw [Function.update_noteq hde]
        exact r3

theorem fillOutgoingFromResiding_shape {dim p : Point} :
    ∀ (l : List (Fin 4 × Fin 4)) (c : Cell), cellShape dim p c →
      cellShape dim p (c.fillOutgoingFromResiding l) := by
  intro l
  induction l with
  | nil => intro c h; exact h
  | cons pr rest ih =>
    intro c h
    obtain ⟨rotation, d⟩ := pr
    rw [Cell.fillOutgoingFromResiding]
    by_cases hguard : (!c.has_neighbor d || (c.outgoing d).isSome) = true
    · rw [if_pos hguard]
      exact ih c h
    · rw [if_neg hguard]
      refine ih _ ?_
      simp only [Bool.or_eq_true, Bool.not_eq_true', not_or] at hguard
      obtain ⟨h1, h2⟩ := hguard
      obtain ⟨hflags, hok⟩ := h
      refine ⟨hflags, fun dd hdd => ?_⟩
      obtain ⟨r1, r2, r3⟩ := hok dd hdd
      have hne : dd ≠ d := fun he => h1 (he ▸ hdd)
      refine ⟨?_, r2, ?_⟩
      · show Function.update c.residing (d + rotation) none dd = none
        by_cases hsrc : dd = d + rotation
        · rw [hsrc, Function.update_same]
        · rw [Function.update_noteq hsrc]
          exact r1
      · show Function.update c.outgoing d _ dd = none
        rw [Function.update_noteq hne]
        exact r3

theorem fillResidingFromIncoming_shape {dim p : Point} :
    ∀ (l : List (Fin 4 × Fin 4)) (c : Cell), cellShape dim p c →
      cellShape dim p (c.fillResidingFromIncoming l) := by
  intro l
  induction l with
  | nil => intro c h; exact h
  | cons pr rest ih =>
    intro c h
    obtain ⟨rotation, d⟩ := pr
    rw [Cell.fillResidingFromIncoming]
    by_cases hguard : (!c.has_neighbor d || (c.residing d).isSome) = true
    · rw [if_pos hguard]
      exact ih c h
    · rw [if_neg hguard]
      refine ih _ ?_
      simp only [Bool.or_eq_true, Bool.not_eq_true', not_or] at hguard
      obtain ⟨h1, h2⟩ := hguard
      obtain ⟨hflags, hok⟩ := h
      refine ⟨hflags, fun dd hdd => ?_⟩
      obtain ⟨r1, r2, r3⟩ := hok dd hdd
      have hne : dd ≠ d := fun he => h1 (he ▸ hdd)
      refine ⟨?_, ?_, r3⟩
      · show Function.update c.residing d _ dd = none
        rw [Function.update_noteq hne]
        exact r1
      · show Function.update c.incoming (d + rotation) none dd = none
        by_cases hsrc : dd = d + rotation
        · rw [hsrc, Function.update_same]
        · rw [Function.update_noteq hsrc]
          exact r2

theorem sort_received_shape {dim p : Point} {c : Cell} (h : cellShape dim p c) :
    cellShape dim p c.sort_received := by
  rw [Cell.sort_received]
  by_cases hrec : ((List.finRange 4).all fun d => (c.incoming d).isNone) = true
  · rw [if_pos hrec]
    exact h
  · rw [if_neg hrec]
    by_cases hful : c.full = true
    · rw [if_pos hful]
      exact fillOutgoingFromResiding_shape _ _
        (drainIncomingToOutgoing_shape _ _ h)
    · rw [if_neg hful]
      exact fillResidingFromIncoming_shape _ _ h

theorem assignCell_shape {dim p : Point} {c : Cell} (h : cellShape dim p c) :
    cellShape dim p (assignCell c) := by
  rw [assignCell]
  cases ho : c.owner with
  | none => exact h
  | some o =>
    obtain ⟨hflags, hok⟩ := h
    refine ⟨hflags, fun dd hdd => ?_⟩
    obtain ⟨r1, r2, r3⟩ := hok dd hdd
    refine ⟨?_, ?_, ?_⟩ <;> simp [r1, r2, r3]


/-! ### Shape preservation by the grid operations -/

theorem deliver_shape {dim coord : Point} {sent : Fin 4 → Option Marble}
    (hc : inBounds dim coord)
    (hs : ∀ d, sent d ≠ none → hasNeighborOf coord dim d = true) :
    ∀ (ld : List (Fin 4)) (g : Grid) (moved : Bool),
    gridShape dim g →
    gridShape dim (Grid.deliver coord sent (g, moved) ld).1 := by
  intro ld
  induction ld with
  | nil => intro g moved h; exact h
  | cons d rest ih =>
    intro g moved h
    rw [Grid.deliver]
    cases hm : sent d with
    | none => exact ih g moved h
    | some marble =>
      refine ih _ _ ?_
      intro q hq
      by_cases hqt : q = coord + DIRECTIONS d
      · subst hqt
        rw [Grid.cell_setCell_self]
        have htb : inBounds dim (coord + DIRECTIONS d) :=
          hasNeighbor_inBounds hc (hs d (by rw [hm]; exact Option.noConfusion))
        refine receive_shape (h _ htb) ?_ marble
        rw [hasNeighborOf_iff htb]
        rw [add_dir_opp]
        exact hc
      · rw [Grid.cell_setCell_ne _ _ hqt]
        exact h q hq

theorem spreadLoop_shape {dim : Point} :
    ∀ (l : List Point) (g : Grid) (moved : Bool),
    (∀ p ∈ l, inBounds dim p) →
    gridShape dim g →
    gridShape dim (Grid.spreadLoop g moved l).1 := by
  intro l
  induction l with
  | nil => intro g moved _ h; exact h
  | cons coord rest ih =>
    intro g moved hl h
    have hcb : inBounds dim coord := hl coord (List.mem_cons_self coord rest)
    by_cases hful : (g.cell coord).full = true
    · simp only [Grid.spreadLoop, hful, if_true]
      obtain ⟨⟨e1, e2, e3, e4, e5⟩, hout, hsent⟩ := send_spec (g.cell coord)
      have hshape1 : gridShape dim (g.setCell coord (g.cell coord).send.1) := by
        intro q hq
        by_cases hqc : q = coord
        · subst hqc
          rw [Grid.cell_setCell_self]
          obtain ⟨hflags, hok⟩ := h q hq
          refine ⟨by rw [e4, hflags], fun dd hdd => ?_⟩
          have hdd' : (g.cell q).has_neighbor dd = false := by
            rw [← e4]
            exact hdd
          obtain ⟨r1, r2, r3⟩ := hok dd hdd'
          exact ⟨by rw [e1]; exact r1, by rw [e2]; exact r2, hout dd⟩
        · rw [Grid.cell_setCell_ne _ _ hqc]
          exact h q hq
      have hsdirs : ∀ d, (g.cell coord).send.2 d ≠ none →
          hasNeighborOf coord dim d = true := by
        intro d hd
        rw [hsent d] at hd
        obtain ⟨hflags, hok⟩ := h coord hcb
        by_cases hnb : (g.cell coord).has_neighbor d = false
        · exact absurd (hok d hnb).2.2 hd
        · rw [← hflags]
          simpa using hnb
      exact ih _ _ (fun p hp => hl p (List.mem_cons_of_mem _ hp))
        (deliver_shape hcb hsdirs (List.finRange 4) _ _ hshape1)
    · simp only [Grid.spreadLoop, hful, if_false]
      exact ih _ _ (fun p hp => hl p (List.mem_cons_of_mem _ hp)) h

/-- Pointwise characterization of the ownership-commit pass. -/
theorem assignOwners_cell (g : Grid) (p : Point) :
    g.assignOwners.cell p =
      if p ∈ cellsList g.dim then assignCell (g.cell p) else g.cell p := by
  rw [Grid.assignOwners]
  have hbody : (fun (g' : Grid) (q : Point) =>
      match (g'.cell q).owner with
      | none => g'
      | some owner =>
        let c := g'.cell q
        g'.setCell q
          { c with
              residing := fun d => (c.residing d).map (fun m => { m with owner := owner })
              incoming := fun d => (c.incoming d).map (fun m => { m with owner := owner })
              outgoing := fun d => (c.outgoing d).map (fun m => { m with owner := owner }) }) =
      fun (g' : Grid) (q : Point) => g'.setCell q (assignCell (g'.cell q)) := by
    funext g' q
    cases ho : (g'.cell q).owner with
    | none =>
      simp only [ho, assignCell]
      exact (Grid.setCell_cell_self g' q).symm
    | some o => simp only [ho, assignCell]
  rw [hbody]
  exact Grid.foldl_mapCell_cell (fun _ c => assignCell c) g _ (nodup_cellsList _) p

theorem assignOwners_shape {dim : Point} {g : Grid} (hdim : g.dim = dim)
    (h : gridShape dim g) : gridShape dim g.assignOwners := by
  intro p hp
  rw [assignOwners_cell]
  by_cases hm : p ∈ cellsList g.dim
  · rw [if_pos hm]
    exact assignCell_shape (h p hp)
  · rw [if_neg hm]
    exact h p hp

theorem sortAll_shape {dim : Point} {g : Grid} (hdim : g.dim = dim)
    (h : gridShape dim g) : gridShape dim g.sortAll := by
  intro p hp
  rw [Grid.sortAll]
  rw [Grid.foldl_mapCell_cell (fun _ c => c.sort_received) g _ (nodup_cellsList _) p]
  by_cases hm : p ∈ cellsList g.dim
  · rw [if_pos hm]
    exact sort_received_shape (h p hp)
  · rw [if_neg hm]
    exact h p hp

theorem spread_shape {dim : Point} {g : Grid} (hdim : g.dim = dim)
    (h : gridShape dim g) : gridShape dim g.spread.1 := by
  rw [Grid.spread]
  have hassign : gridShape dim g.assignOwners := assignOwners_shape hdim h
  have hadim : g.assignOwners.dim = dim := by rw [Grid.assignOwners_dim, hdim]
  have hloop : gridShape dim
      (Grid.spreadLoop g.assignOwners false (pointIterList g.assignOwners.dim)).1 := by
    refine spreadLoop_shape _ _ _ (fun p hp => ?_) hassign
    rw [hadim] at hp
    exact mem_pointIterList.mp hp
  rcases hr : Grid.spreadLoop g.assignOwners false (pointIterList g.assignOwners.dim)
    with ⟨g1, moved⟩
  rw [hr] at hloop
  have h1dim : g1.dim = dim := by
    have := Grid.spreadLoop_dim g.assignOwners false (pointIterList g.assignOwners.dim)
    rw [hr] at this
    simpa [hadim] using this
  cases moved
  · simpa using hloop
  · simp only
    exact sortAll_shape h1dim (by simpa using hloop)

theorem spread_dim_eq {dim : Point} {g : Grid} (hdim : g.dim = dim) :
    g.spread.1.dim = dim := by
  rw [Grid.spread_dim, hdim]

theorem add_marble_grid_shape {dim : Point} {g : Grid} (hdim : g.dim = dim)
    (h : gridShape dim g) {p : Point} (hp : inBounds dim p) (o : Owner) (cs : Int) :
    (∀ g' st, g.add_marble p o cs = Except.ok (g', st) →
      g'.dim = dim ∧ gridShape dim g') ∧
    (∀ g', g.add_marble p o cs = Except.error g' →
      g'.dim = dim ∧ gridShape dim g') := by
  have hset : ∀ c', cellShape dim p c' → gridShape dim (g.setCell p c') := by
    intro c' hc' q hq
    by_cases hqp : q = p
    · subst hqp
      rw [Grid.cell_setCell_self]
      exact hc'
    · rw [Grid.cell_setCell_ne _ _ hqp]
      exact h q hq
  constructor
  · intro g' st hok
    cases hcell : (g.cell p).add_marble o cs with
    | error c1 =>
      simp only [Grid.add_marble, hcell] at hok
      exact Except.noConfusion hok
    | ok c1 =>
      simp only [Grid.add_marble, hcell] at hok
      have hc1 : cellShape dim p c1 := add_marble_shape (h p hp) o cs c1 (Or.inl hcell)
      have hg1 : gridShape dim (g.setCell p c1) := hset c1 hc1
      by_cases hful : c1.full = true
      · rw [if_pos hful] at hok
        have := Except.ok.inj hok
        have hgg : (g.setCell p c1).spread.1 = g' := congrArg Prod.fst this
        rw [← hgg]
        exact ⟨spread_dim_eq (by simpa using hdim), spread_shape (by simpa using hdim) hg1⟩
      · rw [if_neg hful] at hok
        have := Except.ok.inj hok
        have hgg : g.setCell p c1 = g' := congrArg Prod.fst this
        rw [← hgg]
        exact ⟨by simpa using hdim, hg1⟩
  · intro g' herr
    cases hcell : (g.cell p).add_marble o cs with
    | error c1 =>
      simp only [Grid.add_marble, hcell] at herr
      have := Except.error.inj herr
      have hc1 : cellShape dim p c1 := add_marble_shape (h p hp) o cs c1 (Or.inr hcell)
      rw [← this]
      exact ⟨by simpa using hdim, hset c1 hc1⟩
    | ok c1 =>
      simp only [Grid.add_marble, hcell] at herr
      by_cases hful : c1.full = true
      · rw [if_pos hful] at herr
        cases herr
      · rw [if_neg hful] at herr
        cases herr

theorem gridStep_shape {dim : Point} {g : Grid} (hdim : g.dim = dim)
    (h : gridShape dim g) (st : State) (cs : Int) :
    (g.step st cs).1.dim = dim ∧ gridShape dim (g.step st cs).1 := by
  cases st with
  | AcceptingInput => exact ⟨hdim, h⟩
  | Animating n =>
    rw [Grid.step_animating]
    have hint : gridShape dim (g.interpolated n cs) := by
      intro p hp
      show cellShape dim p (if inBounds g.dim p then (g.cell p).step n cs else g.cell p)
      rw [hdim, if_pos hp]
      exact cellStep_shape (h p hp) n cs
    have hintdim : (g.interpolated n cs).dim = dim := hdim
    by_cases hn : n = 0
    · rw [if_pos hn]
      exact ⟨spread_dim_eq hintdim, spread_shape hintdim hint⟩
    · rw [if_neg hn]
      exact ⟨hintdim, hint⟩

/-- Clicking preserves the grid dimension and the slot-shape invariant. -/
theorem click_shape {dim : Point} {g0 : Game} (hdim : g0.grid.dim = dim)
    (hsh : gridShape dim g0.grid) {p : Point} (hp : inBounds dim p) :
    (g0.click p).grid.dim = dim ∧ gridShape dim (g0.click p).grid := by
  cases hst : g0.state with
  | Animating n =>
    simp only [Game.click, hst]
    exact ⟨hdim, hsh⟩
  | AcceptingInput =>
    simp only [Game.click, hst]
    cases hadd : g0.grid.add_marble p g0.cur_player g0.cellsize with
    | ok r =>
      obtain ⟨gr, st⟩ := r
      simp only [hadd]
      rw [next_player_grid]
      exact (add_marble_grid_shape hdim hsh hp _ _).1 gr st hadd
    | error ge =>
      simp only [hadd]
      exact (add_marble_grid_shape hdim hsh hp _ _).2 ge hadd

/-- One game animation frame preserves the grid dimension and the
slot-shape invariant. -/
theorem gameStep_shape {dim : Point} {g0 : Game} (hdim : g0.grid.dim = dim)
    (hsh : gridShape dim g0.grid) :
    g0.step.grid.dim = dim ∧ gridShape dim g0.step.grid := by
  cases hst : g0.state with
  | AcceptingInput =>
    simp only [Game.step, hst]
    exact ⟨hdim, hsh⟩
  | Animating n =>
    simp only [Game.step, hst]
    rw [next_player_grid]
    exact gridStep_shape hdim hsh (State.Animating n) g0.cellsize

/-- Every reachable game state has its declared dimension and satisfies the
slot-shape invariant: marbles only in neighbor directions. -/
theorem reachable_shape {dim : Point} {g : Game} (h : Game.Reachable dim g) :
    g.grid.dim = dim ∧ gridShape dim g.grid := by
  induction h with
  | init => exact ⟨rfl, fun p hp => ⟨rfl, fun d _ => ⟨rfl, rfl, rfl⟩⟩⟩
  | click p hr hp ih => exact click_shape ih.1 ih.2 hp
  | step hr ih => exact gameStep_shape ih.1 ih.2

theorem gridIdx_bounds {dim q : Point} (h : inBounds dim q) :
    0 ≤ gridIdx dim q ∧ gridIdx dim q < dim.re * dim.im := by
  obtain ⟨h1, h2, h3, h4⟩ := h
  constructor
  · have hnn : 0 ≤ q.re * dim.im := mul_nonneg h1 (by omega)
    rw [gridIdx]
    omega
  · have hle : q.re * dim.im ≤ (dim.re - 1) * dim.im :=
      mul_le_mul_of_nonneg_right (by omega) (by omega)
    have hone : (dim.re - 1) * dim.im = dim.re * dim.im - dim.im := by ring
    rw [gridIdx]
    omega

/-- C10: in every reachable grid state a marble occupies an incoming or
outgoing slot only in a direction whose neighbor flag is true; consequently
during `spread()`, at every point of its coordinate loop, each marble about
to be sent targets an in-bounds neighbor coordinate whose flat `Vec` index
is in range. -/
theorem claim_C10 {dim : Point} (g : Game) (hreach : Game.Reachable dim g) :
    (∀ p, inBounds g.grid.dim p → ∀ d : Fin 4,
      ((g.grid.cell p).incoming d ≠ none ∨ (g.grid.cell p).outgoing d ≠ none) →
      (g.grid.cell p).has_neighbor d = true) ∧
    (∀ (n : Nat) (hn : n < (pointIterList g.grid.dim).length) (d : Fin 4),
      ((Grid.spreadLoop g.grid.assignOwners false
          ((pointIterList g.grid.dim).take n)).1.cell
            ((pointIterList g.grid.dim).get ⟨n, hn⟩)).outgoing d ≠ none →
      inBounds g.grid.dim ((pointIterList g.grid.dim).get ⟨n, hn⟩ + DIRECTIONS d) ∧
      0 ≤ gridIdx g.grid.dim ((pointIterList g.grid.dim).get ⟨n, hn⟩ + DIRECTIONS d) ∧
      gridIdx g.grid.dim ((pointIterList g.grid.dim).get ⟨n, hn⟩ + DIRECTIONS d) <
        g.grid.dim.re * g.grid.dim.im) := by
  obtain ⟨hdim, hsh⟩ := reachable_shape hreach
  subst hdim
  constructor
  · intro p hp d hocc
    obtain ⟨hflags, hok⟩ := hsh p hp
    by_cases hnb : (g.grid.cell p).has_neighbor d = true
    · exact hnb
    · exfalso
      obtain ⟨r1, r2, r3⟩ := hok d (by simpa using hnb)
      rcases hocc with ho | ho
      · exact ho r2
      · exact ho r3
  · intro n hn d hout
    have hassign : gridShape g.grid.dim g.grid.assignOwners :=
      assignOwners_shape rfl hsh
    have hsub : ∀ p ∈ (pointIterList g.grid.dim).take n, inBounds g.grid.dim p := by
      intro p hp
      exact mem_pointIterList.mp (List.mem_of_mem_take hp)
    have hshape' := spreadLoop_shape ((pointIterList g.grid.dim).take n)
      g.grid.assignOwners false hsub hassign
    have hcb : inBounds g.grid.dim ((pointIterList g.grid.dim).get ⟨n, hn⟩) :=
      mem_pointIterList.mp ((pointIterList g.grid.dim).get_mem n hn)
    obtain ⟨hflags, hok⟩ := hshape' _ hcb
    have hnb : ((Grid.spreadLoop g.grid.assignOwners false
        ((pointIterList g.grid.dim).take n)).1.cell
          ((pointIterList g.grid.dim).get ⟨n, hn⟩)).has_neighbor d = true := by
      by_cases hb : ((Grid.spreadLoop g.grid.assignOwners false
          ((pointIterList g.grid.dim).take n)).1.cell
            ((pointIterList g.grid.dim).get ⟨n, hn⟩)).has_neighbor d = true
      · exact hb
      · exact absurd (hok d (by simpa using hb)).2.2 hout
    rw [hflags] at hnb
    have htgt : inBounds g.grid.dim
        ((pointIterList g.grid.dim).get ⟨n, hn⟩ + DIRECTIONS d) :=
      hasNeighbor_inBounds hcb hnb
    exact ⟨htgt, (gridIdx_bounds htgt).1, (gridIdx_bounds htgt).2⟩

theorem reachable_playOverflow32 : Game.Reachable ⟨3, 2⟩ playOverflow32 := by
  have h0 : Game.Reachable ⟨3, 2⟩ (Game.new ⟨3, 2⟩) := Game.Reachable.init
  have h1 := Game.Reachable.click (⟨0, 0⟩ : Point) h0 (by decide)
  have h2 := Game.Reachable.click (⟨1, 0⟩ : Point) h1 (by decide)
  have h3 := Game.Reachable.click (⟨2, 1⟩ : Point) h2 (by decide)
  exact Game.Reachable.click (⟨0, 0⟩ : Point) h3 (by decide)

/-- Witness for C10 at a concrete reachable state (the overflow play on
the 3×2 grid). -/
theorem claim_C10_witness :
    (∀ p, inBounds playOverflow32.grid.dim p → ∀ d : Fin 4,
      ((playOverflow32.grid.cell p).incoming d ≠ none ∨
        (playOverflow32.grid.cell p).outgoing d ≠ none) →
      (playOverflow32.grid.cell p).has_neighbor d = true) ∧
    (∀ (n : Nat) (hn : n < (pointIterList playOverflow32.grid.dim).length) (d : Fin 4),
      ((Grid.spreadLoop playOverflow32.grid.assignOwners false
          ((pointIterList playOverflow32.grid.dim).take n)).1.cell
            ((pointIterList playOverflow32.grid.dim).get ⟨n, hn⟩)).outgoing d ≠ none →
      inBounds playOverflow32.grid.dim
        ((pointIterList playOverflow32.grid.dim).get ⟨n, hn⟩ + DIRECTIONS d) ∧
      0 ≤ gridIdx playOverflow32.grid.dim
        ((pointIterList playOverflow32.grid.dim).get ⟨n, hn⟩ + DIRECTIONS d) ∧
      gridIdx playOverflow32.grid.dim
        ((pointIterList playOverflow32.grid.dim).get ⟨n, hn⟩ + DIRECTIONS d) <
        playOverflow32.grid.dim.re * playOverflow32.grid.dim.im) :=
  claim_C10 playOverflow32 reachable_playOverflow32


/-! ### Marble counting -/

theorem countP_isSome_update (s : Fin 4 → Option Marble) (d : Fin 4) (v : Option Marble) :
    ∀ (l : List (Fin 4)), l.Nodup → d ∈ l →
    l.countP (fun x => (Function.update s d v x).isSome) +
      (if (s d).isSome then 1 else 0) =
    l.countP (fun x => (s x).isSome) + (if v.isSome then 1 else 0) := by
  intro l
  induction l with
  | nil => intro _ h; cases h
  | cons q rest ih =>
    intro hl hd
    rw [List.countP_cons, List.countP_cons]
    by_cases hqd : q = d
    · subst hqd
      have hnot : q ∉ rest := (List.nodup_cons.mp hl).1
      have hcong : rest.countP (fun x => (Function.update s q v x).isSome) =
          rest.countP (fun x => (s x).isSome) := by
        apply List.countP_congr
        intro a ha
        rw [Function.update_noteq (fun he => hnot (by rwa [he] at ha))]
      rw [Function.update_same, hcong]
      cases hv : v.isSome <;> cases hq : (s q).isSome <;> simp [hv, hq] <;> omega
    · rw [Function.update_noteq hqd]
      have hdr : d ∈ rest := by
        rcases List.mem_cons.mp hd with h | h
        · exact absurd h.symm hqd
        · exact h
      have := ih (List.nodup_cons.mp hl).2 hdr
      omega

theorem slotCount_update (s : Fin 4 → Option Marble) (d : Fin 4) (v : Option Marble) :
    slotCount (Function.update s d v) + (if (s d).isSome then 1 else 0) =
    slotCount s + (if v.isSome then 1 else 0) :=
  countP_isSome_update s d v (List.finRange 4) (List.nodup_finRange 4) (List.mem_finRange d)

theorem slotCount_update_some_of_none {s : Fin 4 → Option Marble} {d : Fin 4}
    (m : Marble) (h : s d = none) :
    slotCount (Function.update s d (some m)) = slotCount s + 1 := by
  have := slotCount_update s d (some m)
  rw [h] at this
  simpa using this

theorem slotCount_map_owner (s : Fin 4 → Option Marble) (o : Owner) :
    slotCount (fun d => (s d).map (fun m => { m with owner := o })) = slotCount s := by
  apply List.countP_congr
  intro a _
  cases hsa : s a <;> simp [hsa]

theorem cellMarbles_send (c : Cell) :
    cellMarbles c.send.1 + slotCount c.outgoing = cellMarbles c := by
  obtain ⟨⟨e1, e2, _, _, _⟩, hout, _⟩ := send_spec c
  rw [cellMarbles, cellMarbles, e1, e2]
  have hz : slotCount c.send.1.outgoing = 0 := by
    have hfun : c.send.1.outgoing = fun _ => none := funext hout
    rw [hfun]
    rfl
  omega

theorem cellMarbles_receive {c : Cell} {d : Fin 4} (h : c.incoming d = none) (m : Marble) :
    cellMarbles (c.receive d m) = cellMarbles c + 1 := by
  show slotCount c.residing + slotCount (Function.update c.incoming d (some m)) +
      slotCount c.outgoing = slotCount c.residing + slotCount c.incoming +
      slotCount c.outgoing + 1
  rw [slotCount_update_some_of_none m h]
  omega

theorem cellMarbles_assignCell (c : Cell) : cellMarbles (assignCell c) = cellMarbles c := by
  rw [assignCell]
  cases ho : c.owner with
  | none => rfl
  | some o =>
    show slotCount (fun d => (c.residing d).map _) + slotCount (fun d => (c.incoming d).map _) +
        slotCount (fun d => (c.outgoing d).map _) = _
    rw [slotCount_map_owner, slotCount_map_owner, slotCount_map_owner]
    rfl

theorem receive_outgoing (c : Cell) (d : Fin 4) (m : Marble) (dd : Fin 4) :
    (c.receive d m).outgoing dd = c.outgoing dd := rfl

theorem totalMarbles_map_setCell_not_mem (g : Grid) (p : Point) (c : Cell) :
    ∀ (l : List Point), p ∉ l →
    (l.map (fun q => cellMarbles ((g.setCell p c).cell q))).sum =
    (l.map (fun q => cellMarbles (g.cell q))).sum := by
  intro l
  induction l with
  | nil => intro _; rfl
  | cons q rest ih =>
    intro hp
    have hqp : q ≠ p := fun he => hp (he ▸ List.mem_cons_self q rest)
    rw [List.map_cons, List.map_cons, List.sum_cons, List.sum_cons,
      Grid.cell_setCell_ne _ _ hqp, ih (fun hm => hp (List.mem_cons_of_mem _ hm))]

theorem totalMarbles_setCell_aux (g : Grid) (p : Point) (c : Cell) :
    ∀ (l : List Point), l.Nodup → p ∈ l →
    (l.map (fun q => cellMarbles ((g.setCell p c).cell q))).sum + cellMarbles (g.cell p) =
    (l.map (fun q => cellMarbles (g.cell q))).sum + cellMarbles c := by
  intro l
  induction l with
  | nil => intro _ h; cases h
  | cons q rest ih =>
    intro hl hp
    rw [List.map_cons, List.map_cons, List.sum_cons, List.sum_cons]
    by_cases hqp : q = p
    · subst hqp
      have hnot : q ∉ rest := (List.nodup_cons.mp hl).1
      rw [Grid.cell_setCell_self, totalMarbles_map_setCell_not_mem g q c rest hnot]
      omega
    · have hpr : p ∈ rest := by
        rcases List.mem_cons.mp hp with h | h
        · exact absurd h.symm hqp
        · exact h
      rw [Grid.cell_setCell_ne _ _ hqp]
      have := ih (List.nodup_cons.mp hl).2 hpr
      omega

theorem totalMarbles_setCell {dim : Point} (g : Grid) {p : Point} (c : Cell)
    (hp : inBounds dim p) :
    Grid.totalMarbles dim (g.setCell p c) + cellMarbles (g.cell p) =
    Grid.totalMarbles dim g + cellMarbles c :=
  totalMarbles_setCell_aux g p c (cellsList dim) (nodup_cellsList dim)
    (mem_cellsList.mpr hp)

theorem totalMarbles_assignOwners (dim : Point) (g : Grid) (hdim : g.dim = dim) :
    Grid.totalMarbles dim g.assignOwners = Grid.totalMarbles dim g := by
  rw [Grid.totalMarbles, Grid.totalMarbles]
  apply congrArg List.sum
  apply List.map_congr_left
  intro p hp
  rw [assignOwners_cell, hdim, if_pos hp, cellMarbles_assignCell]


/-- Accounting for the delivery loop of `Grid::spread`: every delivered
marble lands in an empty incoming slot of an in-bounds neighbor, so the
total marble count grows by exactly the number of delivered marbles; no
outgoing slot changes, counts only grow, and every new incoming marble is
tagged with its sender direction. -/
theorem deliver_conserve {dim coord : Point} {sent : Fin 4 → Option Marble}
    (hc : inBounds dim coord)
    (hs : ∀ d, sent d ≠ none → hasNeighborOf coord dim d = true) :
    ∀ (ld : List (Fin 4)), ld.Nodup → ∀ (g : Grid) (moved : Bool),
    gridShape dim g →
    (∀ d ∈ ld, sent d ≠ none →
      (g.cell (coord + DIRECTIONS d)).incoming (d + 2) = none) →
    (Grid.totalMarbles dim (Grid.deliver coord sent (g, moved) ld).1 =
      Grid.totalMarbles dim g + ld.countP (fun d => (sent d).isSome)) ∧
    (∀ p s, ((Grid.deliver coord sent (g, moved) ld).1.cell p).incoming s ≠ none →
      ((g.cell p).incoming s ≠ none ∨ ∃ d, d ∈ ld ∧ sent d ≠ none ∧
        p = coord + DIRECTIONS d ∧ s = d + 2)) ∧
    (∀ p dd, ((Grid.deliver coord sent (g, moved) ld).1.cell p).outgoing dd =
      (g.cell p).outgoing dd) ∧
    (∀ p, ((Grid.deliver coord sent (g, moved) ld).1.cell p).neighbors =
      (g.cell p).neighbors ∧
      (g.cell p).count ≤ ((Grid.deliver coord sent (g, moved) ld).1.cell p).count) := by
  intro ld
  induction ld with
  | nil =>
    intro _ g moved _ _
    exact ⟨by simp [Grid.deliver], fun p s h => Or.inl h, fun p dd => rfl,
      fun p => ⟨rfl, le_refl _⟩⟩
  | cons d rest ih =>
    intro hnd g moved hsh hin
    have hdnot : d ∉ rest := (List.nodup_cons.mp hnd).1
    have hrest := (List.nodup_cons.mp hnd).2
    cases hm : sent d with
    | none =>
      have heq : Grid.deliver coord sent (g, moved) (d :: rest) =
          Grid.deliver coord sent (g, moved) rest := by
        simp only [Grid.deliver, hm]
      obtain ⟨ht, hi, ho, hcnt⟩ := ih hrest g moved hsh
        (fun d' hd' => hin d' (List.mem_cons_of_mem _ hd'))
      rw [heq]
      refine ⟨?_, ?_, ho, hcnt⟩
      · rw [ht, List.countP_cons]
        simp [hm]
      · intro p s hps
        rcases hi p s hps with h1 | ⟨d', hd', h2, h3, h4⟩
        · exact Or.inl h1
        · exact Or.inr ⟨d', List.mem_cons_of_mem _ hd', h2, h3, h4⟩
    | some marble =>
      have hsd : sent d ≠ none := by rw [hm]; exact Option.noConfusion
      have hnb := hs d hsd
      have htb : inBounds dim (coord + DIRECTIONS d) := hasNeighbor_inBounds hc hnb
      have hempty := hin d (List.mem_cons_self d rest) hsd
      set t := coord + DIRECTIONS d with hdeft
      set g' := g.setCell t ((g.cell t).receive (d + 2) marble) with hdefg
      have heq : Grid.deliver coord sent (g, moved) (d :: rest) =
          Grid.deliver coord sent (g', true) rest := by
        simp only [Grid.deliver, hm]
      have hcellt : g'.cell t = (g.cell t).receive (d + 2) marble :=
        Grid.cell_setCell_self ..
      have hcellne : ∀ q, q ≠ t → g'.cell q = g.cell q := fun q hq =>
        Grid.cell_setCell_ne _ _ hq
      have hnb2 : hasNeighborOf t dim (d + 2) = true := by
        rw [hasNeighborOf_iff htb, hdeft, add_dir_opp]
        exact hc
      have hsh' : gridShape dim g' := by
        intro q hq
        by_cases hqt : q = t
        · subst hqt
          rw [hcellt]
          exact receive_shape (hsh _ hq) hnb2 marble
        · rw [hcellne q hqt]
          exact hsh q hq
      have hin' : ∀ d' ∈ rest, sent d' ≠ none →
          (g'.cell (coord + DIRECTIONS d')).incoming (d' + 2) = none := by
        intro d' hd' hsd'
        have hne : coord + DIRECTIONS d' ≠ t := by
          rw [hdeft]
          intro he
          exact hdnot ((dir_target_inj coord he) ▸ hd')
        rw [hcellne _ hne]
        exact hin d' (List.mem_cons_of_mem _ hd') hsd'
      obtain ⟨ht', hi', ho', hcnt'⟩ := ih hrest g' true hsh' hin'
      rw [heq]
      refine ⟨?_, ?_, ?_, ?_⟩
      · rw [ht']
        have hrecv := cellMarbles_receive hempty marble
        have hsc := totalMarbles_setCell g ((g.cell t).receive (d + 2) marble) htb
        rw [List.countP_cons]
        simp only [hm, Option.isSome_some, if_pos]
        have hgg : Grid.totalMarbles dim g' = Grid.totalMarbles dim g + 1 := by
          rw [hdefg]
          omega
        omega
      · intro p s hps
        rcases hi' p s hps with h1 | ⟨d', hd', h2, h3, h4⟩
        · by_cases hpt : p = t
          · subst hpt
            rw [hcellt] at h1
            by_cases hsd2 : s = d + 2
            · exact Or.inr ⟨d, List.mem_cons_self d rest, hsd, hdeft, hsd2⟩
            · left
              have h1' : Function.update (g.cell t).incoming (d + 2) (some marble) s ≠
                  none := h1
              rw [Function.update_noteq hsd2] at h1'
              exact h1'
          · rw [hcellne p hpt] at h1
            exact Or.inl h1
        · exact Or.inr ⟨d', List.mem_cons_of_mem _ hd', h2, h3, h4⟩
      · intro p dd
        rw [ho' p dd]
        by_cases hpt : p = t
        · subst hpt
          rw [hcellt]
          rfl
        · rw [hcellne p hpt]
      · intro p
        obtain ⟨hn', hc'⟩ := hcnt' p
        by_cases hpt : p = t
        · subst hpt
          have hnr : ((g.cell t).receive (d + 2) marble).neighbors =
              (g.cell t).neighbors := rfl
          refine ⟨by rw [hn', hcellt, hnr], ?_⟩
          refine le_trans ?_ hc'
          rw [hcellt]
          show (g.cell t).count ≤ (g.cell t).count + 1
          omega
        · refine ⟨by rw [hn', hcellne p hpt], ?_⟩
          refine le_trans ?_ hc'
          rw [hcellne p hpt]


/-- Conservation along the main loop of `Grid::spread`: assuming the two
staging invariants (every staged incoming marble's sender is no longer
pending, every staged outgoing marble sits in a pending full cell), the
loop neither creates nor destroys marbles and drains every outgoing slot. -/
theorem spreadLoop_conserve {dim : Point} :
    ∀ (rem : List Point), rem.Nodup → (∀ p ∈ rem, inBounds dim p) →
    ∀ (g : Grid) (moved : Bool),
    gridShape dim g →
    (∀ p, inBounds dim p → ∀ s : Fin 4, (g.cell p).incoming s ≠ none →
      p + DIRECTIONS s ∉ rem) →
    (∀ p, inBounds dim p → ∀ dd : Fin 4, (g.cell p).outgoing dd ≠ none →
      p ∈ rem ∧ (g.cell p).full = true) →
    Grid.totalMarbles dim (Grid.spreadLoop g moved rem).1 =
      Grid.totalMarbles dim g ∧
    (∀ p, inBounds dim p → ∀ dd : Fin 4,
      ((Grid.spreadLoop g moved rem).1.cell p).outgoing dd = none) := by
  intro rem
  induction rem with
  | nil =>
    intro _ _ g moved _ _ hout
    refine ⟨rfl, fun p hp dd => ?_⟩
    by_cases h : (g.cell p).outgoing dd = none
    · exact h
    · exact absurd (hout p hp dd h).1 (List.not_mem_nil _)
  | cons coord rest ih =>
    intro hnd hbnd g moved hsh hin hout
    have hcb : inBounds dim coord := hbnd coord (List.mem_cons_self ..)
    have hcnot : coord ∉ rest := (List.nodup_cons.mp hnd).1
    have hrest := (List.nodup_cons.mp hnd).2
    have hbnd' : ∀ p ∈ rest, inBounds dim p :=
      fun p hp => hbnd p (List.mem_cons_of_mem _ hp)
    by_cases hful : (g.cell coord).full = true
    · simp only [Grid.spreadLoop, hful, if_true]
      obtain ⟨⟨e1, e2, e3, e4, e5⟩, houtg, hsent⟩ := send_spec (g.cell coord)
      set g1 := g.setCell coord (g.cell coord).send.1 with hdefg1
      have hg1coord : g1.cell coord = (g.cell coord).send.1 :=
        Grid.cell_setCell_self ..
      have hg1ne : ∀ q, q ≠ coord → g1.cell q = g.cell q := fun q hq =>
        Grid.cell_setCell_ne _ _ hq
      have hsh1 : gridShape dim g1 := by
        intro q hq
        by_cases hqc : q = coord
        · subst hqc
          rw [hg1coord]
          obtain ⟨hflags, hok⟩ := hsh q hq
          refine ⟨by rw [e4, hflags], fun dd hdd => ?_⟩
          have hdd' : (g.cell q).has_neighbor dd = false := by
            rw [← e4]
            exact hdd
          obtain ⟨r1, r2, r3⟩ := hok dd hdd'
          exact ⟨by rw [e1]; exact r1, by rw [e2]; exact r2, houtg dd⟩
        · rw [hg1ne _ hqc]
          exact hsh q hq
      have hsdirs : ∀ d, (g.cell coord).send.2 d ≠ none →
          hasNeighborOf coord dim d = true := by
        intro d hd
        rw [hsent d] at hd
        obtain ⟨hflags, hok⟩ := hsh coord hcb
        by_cases hnb : (g.cell coord).has_neighbor d = false
        · exact absurd (hok d hnb).2.2 hd
        · rw [← hflags]
          simpa using hnb
      have hin1 : ∀ d ∈ List.finRange 4, (g.cell coord).send.2 d ≠ none →
          (g1.cell (coord + DIRECTIONS d)).incoming (d + 2) = none := by
        intro d _ hd
        have htb : inBounds dim (coord + DIRECTIONS d) :=
          hasNeighbor_inBounds hcb (hsdirs d hd)
        have hge : (g1.cell (coord + DIRECTIONS d)).incoming (d + 2) =
            (g.cell (coord + DIRECTIONS d)).incoming (d + 2) := by
          by_cases hqc : coord + DIRECTIONS d = coord
          · rw [hqc, hg1coord, e2]
          · rw [hg1ne _ hqc]
        rw [hge]
        by_cases hn : (g.cell (coord + DIRECTIONS d)).incoming (d + 2) = none
        · exact hn
        · exfalso
          have := hin (coord + DIRECTIONS d) htb (d + 2) hn
          rw [add_dir_opp] at this
          exact this (List.mem_cons_self ..)
      obtain ⟨hdel_t, hdel_i, hdel_o, hdel_c⟩ :=
        deliver_conserve hcb hsdirs (List.finRange 4) (List.nodup_finRange 4)
          g1 moved hsh1 hin1
      set r := Grid.deliver coord (g.cell coord).send.2 (g1, moved)
        (List.finRange 4) with hdefr
      have hsh2 : gridShape dim r.1 :=
        deliver_shape hcb hsdirs (List.finRange 4) g1 moved hsh1
      have hin2 : ∀ p, inBounds dim p → ∀ s : Fin 4,
          (r.1.cell p).incoming s ≠ none → p + DIRECTIONS s ∉ rest := by
        intro p hp s hs'
        rcases hdel_i p s hs' with h1 | ⟨d, _, hd2, hp2, hs2⟩
        · have h1g : (g.cell p).incoming s ≠ none := by
            by_cases hpc : p = coord
            · subst hpc
              rw [hg1coord, e2] at h1
              exact h1
            · rw [hg1ne _ hpc] at h1
              exact h1
          have := hin p hp s h1g
          exact fun hm => this (List.mem_cons_of_mem _ hm)
        · rw [hp2, hs2, add_dir_opp]
          exact hcnot
      have hout2 : ∀ p, inBounds dim p → ∀ dd : Fin 4,
          (r.1.cell p).outgoing dd ≠ none →
          p ∈ rest ∧ (r.1.cell p).full = true := by
        intro p hp dd hod
        rw [hdel_o p dd] at hod
        by_cases hpc : p = coord
        · subst hpc
          rw [hg1coord] at hod
          exact absurd (houtg dd) hod
        · rw [hg1ne _ hpc] at hod
          obtain ⟨hmem, hfulp⟩ := hout p hp dd hod
          have hmem' : p ∈ rest := by
            rcases List.mem_cons.mp hmem with h | h
            · exact absurd h hpc
            · exact h
          refine ⟨hmem', ?_⟩
          have h1 : (r.1.cell p).neighbors = (g.cell p).neighbors := by
            rw [(hdel_c p).1, hg1ne _ hpc]
          have h2 : (g.cell p).count ≤ (r.1.cell p).count := by
            have hle := (hdel_c p).2
            rw [hg1ne _ hpc] at hle
            exact hle
          simp only [Cell.full, decide_eq_true_eq] at hfulp ⊢
          omega
      obtain ⟨hT, hO⟩ := ih hrest hbnd' r.1 r.2 hsh2 hin2 hout2
      refine ⟨?_, hO⟩
      rw [hT, hdel_t]
      have hcp : List.countP (fun d => ((g.cell coord).send.2 d).isSome)
          (List.finRange 4) = slotCount (g.cell coord).outgoing := by
        rw [slotCount]
        apply List.countP_congr
        intro a _
        rw [hsent a]
      have hms := cellMarbles_send (g.cell coord)
      have hsc := totalMarbles_setCell g (g.cell coord).send.1 hcb
      rw [← hdefg1] at hsc
      omega
    · simp only [Grid.spreadLoop, hful, if_false]
      apply ih hrest hbnd' g moved hsh
      · intro p hp s hs'
        have := hin p hp s hs'
        exact fun hm => this (List.mem_cons_of_mem _ hm)
      · intro p hp dd hod
        obtain ⟨hmem, hfulp⟩ := hout p hp dd hod
        rcases List.mem_cons.mp hmem with h | h
        · exact absurd (h ▸ hfulp) hful
        · exact ⟨h, hfulp⟩


/-- The drain loop of `Cell::sort_received`'s full branch conserves the cell's
marble count when every drained-into outgoing slot starts empty. -/
theorem cellMarbles_drain :
    ∀ (l : List (Fin 4)), l.Nodup → ∀ (c : Cell),
    (∀ d ∈ l, c.outgoing d = none) →
    cellMarbles (c.drainIncomingToOutgoing l) = cellMarbles c := by
  intro l
  induction l with
  | nil => intro _ c _; rfl
  | cons d rest ih =>
    intro hl c hout
    have hd : c.outgoing d = none := hout d (List.mem_cons_self ..)
    rw [Cell.drainIncomingToOutgoing]
    refine (ih (List.nodup_cons.mp hl).2 _ ?_).trans ?_
    · intro d' hd'
      have hne : d' ≠ d := fun he => (List.nodup_cons.mp hl).1 (he ▸ hd')
      show Function.update c.outgoing d (c.incoming d) d' = none
      rw [Function.update_noteq hne]
      exact hout d' (List.mem_cons_of_mem _ hd')
    · show slotCount c.residing + slotCount (Function.update c.incoming d none) +
        slotCount (Function.update c.outgoing d (c.incoming d)) =
        slotCount c.residing + slotCount c.incoming + slotCount c.outgoing
      have e1 := slotCount_update c.incoming d none
      have e2 := slotCount_update c.outgoing d (c.incoming d)
      rw [hd] at e2
      simp only [Option.isSome_none, Bool.false_eq_true, if_false] at e1 e2
      omega

/-- The rotation loop of `Cell::sort_received`'s full branch conserves the
cell's marble count (each move targets an empty outgoing slot). -/
theorem cellMarbles_fillOut :
    ∀ (l : List (Fin 4 × Fin 4)) (c : Cell),
    cellMarbles (c.fillOutgoingFromResiding l) = cellMarbles c := by
  intro l
  induction l with
  | nil => intro c; rfl
  | cons pr rest ih =>
    intro c
    obtain ⟨rot, d⟩ := pr
    rw [Cell.fillOutgoingFromResiding]
    by_cases hg : (!c.has_neighbor d || (c.outgoing d).isSome) = true
    · rw [if_pos hg]
      exact ih c
    · rw [if_neg hg]
      refine (ih _).trans ?_
      have hsome : ¬(c.outgoing d).isSome = true := fun h =>
        hg (by simp [h])
      have hdst : c.outgoing d = none := by
        cases ho : c.outgoing d with
        | none => rfl
        | some m => exact absurd (by rw [ho]; rfl) hsome
      show slotCount (Function.update c.residing (d + rot) none) +
        slotCount c.incoming +
        slotCount (Function.update c.outgoing d (c.residing (d + rot))) =
        slotCount c.residing + slotCount c.incoming + slotCount c.outgoing
      have e1 := slotCount_update c.residing (d + rot) none
      have e2 := slotCount_update c.outgoing d (c.residing (d + rot))
      rw [hdst] at e2
      simp only [Option.isSome_none, Bool.false_eq_true, if_false] at e1 e2
      omega

/-- The rotation loop of `Cell::sort_received`'s non-full branch conserves
the cell's marble count (each move targets an empty residing slot). -/
theorem cellMarbles_fillRes :
    ∀ (l : List (Fin 4 × Fin 4)) (c : Cell),
    cellMarbles (c.fillResidingFromIncoming l) = cellMarbles c := by
  intro l
  induction l with
  | nil => intro c; rfl
  | cons pr rest ih =>
    intro c
    obtain ⟨rot, d⟩ := pr
    rw [Cell.fillResidingFromIncoming]
    by_cases hg : (!c.has_neighbor d || (c.residing d).isSome) = true
    · rw [if_pos hg]
      exact ih c
    · rw [if_neg hg]
      refine (ih _).trans ?_
      have hsome : ¬(c.residing d).isSome = true := fun h =>
        hg (by simp [h])
      have hdst : c.residing d = none := by
        cases ho : c.residing d with
        | none => rfl
        | some m => exact absurd (by rw [ho]; rfl) hsome
      show slotCount (Function.update c.residing d (c.incoming (d + rot))) +
        slotCount (Function.update c.incoming (d + rot) none) +
        slotCount c.outgoing =
        slotCount c.residing + slotCount c.incoming + slotCount c.outgoing
      have e1 := slotCount_update c.incoming (d + rot) none
      have e2 := slotCount_update c.residing d (c.incoming (d + rot))
      rw [hdst] at e2
      simp only [Option.isSome_none, Bool.false_eq_true, if_false] at e1 e2
      omega

/-- `Cell::sort_received` conserves the cell's marble count provided the
outgoing slots are empty when it is called (as they are after `send`). -/
theorem cellMarbles_sort (c : Cell) (hout : ∀ d, c.outgoing d = none) :
    cellMarbles c.sort_received = cellMarbles c := by
  rw [Cell.sort_received]
  by_cases h1 : ((List.finRange 4).all fun d => (c.incoming d).isNone) = true
  · rw [if_pos h1]
  · rw [if_neg h1]
    by_cases h2 : c.full = true
    · rw [if_pos h2]
      rw [cellMarbles_fillOut]
      exact cellMarbles_drain (List.finRange 4) (List.nodup_finRange 4) c
        (fun d _ => hout d)
    · rw [if_neg h2]
      exact cellMarbles_fillRes Cell.rotationPairs c

/-- The `sort_received` sweep at the end of `Grid::spread` conserves the
total marble count when every in-bounds outgoing slot is empty. -/
theorem totalMarbles_sortAll {dim : Point} (g : Grid) (hdim : g.dim = dim)
    (hout : ∀ p, inBounds dim p → ∀ d : Fin 4, (g.cell p).outgoing d = none) :
    Grid.totalMarbles dim g.sortAll = Grid.totalMarbles dim g := by
  rw [Grid.totalMarbles, Grid.totalMarbles]
  apply congrArg List.sum
  apply List.map_congr_left
  intro p hp
  rw [Grid.sortAll,
    Grid.foldl_mapCell_cell (fun _ c => c.sort_received) g _ (nodup_cellsList _) p]
  rw [hdim]
  rw [if_pos hp]
  exact cellMarbles_sort (g.cell p) (hout p (mem_cellsList.mp hp))


theorem assignCell_incoming_none (c : Cell) (s : Fin 4)
    (h : c.incoming s = none) : (assignCell c).incoming s = none := by
  cases ho : c.owner with
  | none => simp only [assignCell, ho]; exact h
  | some o =>
    simp only [assignCell, ho]
    rw [h]
    rfl

theorem assignCell_outgoing_ne (c : Cell) (dd : Fin 4)
    (h : (assignCell c).outgoing dd ≠ none) : c.outgoing dd ≠ none := by
  cases ho : c.owner with
  | none => simp only [assignCell, ho] at h; exact h
  | some o =>
    simp only [assignCell, ho] at h
    intro hc
    apply h
    show (c.outgoing dd).map _ = none
    rw [hc]
    rfl

theorem assignCell_full (c : Cell) : (assignCell c).full = c.full := by
  cases ho : c.owner with
  | none => simp only [assignCell, ho]
  | some o =>
    simp only [assignCell, ho]
    rfl

/-- C1: a single call to `Grid::spread` conserves the total number of
marbles on the grid.  The hypotheses state the situation in which `spread`
is called by the program (after `add_marble` or at the end of an animation
cycle): every in-bounds cell satisfies the slot/neighbor shape invariant,
all incoming slots are empty, and a staged outgoing marble only sits in a
full cell.  Marbles only move between slots and cells; none are created or
destroyed by propagation. -/
theorem claim_C1 (dim : Point) (g : Grid) (hdim : g.dim = dim)
    (hshape : ∀ p ∈ cellsList dim, cellShape dim p (g.cell p))
    (hinc : ∀ p ∈ cellsList dim, ∀ s : Fin 4, (g.cell p).incoming s = none)
    (hout : ∀ p ∈ cellsList dim, ∀ dd : Fin 4,
      (g.cell p).outgoing dd ≠ none → (g.cell p).full = true) :
    Grid.totalMarbles dim g.spread.1 = Grid.totalMarbles dim g := by
  have hsh : gridShape dim g := fun p hp => hshape p (mem_cellsList.mpr hp)
  have hdim0 : g.assignOwners.dim = dim := by rw [Grid.assignOwners_dim, hdim]
  have hsh0 : gridShape dim g.assignOwners := assignOwners_shape hdim hsh
  have hinc0 : ∀ p, inBounds dim p → ∀ s : Fin 4,
      (g.assignOwners.cell p).incoming s = none := by
    intro p hp s
    rw [assignOwners_cell, hdim, if_pos (mem_cellsList.mpr hp)]
    exact assignCell_incoming_none _ _ (hinc p (mem_cellsList.mpr hp) s)
  have hout0 : ∀ p, inBounds dim p → ∀ dd : Fin 4,
      (g.assignOwners.cell p).outgoing dd ≠ none →
      (g.assignOwners.cell p).full = true := by
    intro p hp dd hne
    rw [assignOwners_cell, hdim, if_pos (mem_cellsList.mpr hp)] at hne ⊢
    rw [assignCell_full]
    exact hout p (mem_cellsList.mpr hp) dd (assignCell_outgoing_ne _ _ hne)
  obtain ⟨hT, hO⟩ := spreadLoop_conserve (pointIterList dim)
    (nodup_pointIterList dim) (fun p hp => mem_pointIterList.mp hp)
    g.assignOwners false hsh0
    (fun p hp s hne => absurd (hinc0 p hp s) hne)
    (fun p hp dd hne => ⟨mem_pointIterList.mpr hp, hout0 p hp dd hne⟩)
  have htot0 := totalMarbles_assignOwners dim g hdim
  simp only [Grid.spread]
  rw [hdim0]
  by_cases hmv : (Grid.spreadLoop g.assignOwners false (pointIterList dim)).2 = true
  · rw [if_pos hmv]
    have hr1dim :
        (Grid.spreadLoop g.assignOwners false (pointIterList dim)).1.dim = dim := by
      rw [Grid.spreadLoop_dim, hdim0]
    show Grid.totalMarbles dim
        (Grid.spreadLoop g.assignOwners false (pointIterList dim)).1.sortAll =
      Grid.totalMarbles dim g
    rw [totalMarbles_sortAll _ hr1dim hO, hT, htot0]
  · rw [if_neg hmv]
    show Grid.totalMarbles dim
        (Grid.spreadLoop g.assignOwners false (pointIterList dim)).1 =
      Grid.totalMarbles dim g
    rw [hT, htot0]

theorem claim_C1_witness :
    Grid.totalMarbles ⟨2, 2⟩ stagedGrid22.spread.1 =
      Grid.totalMarbles ⟨2, 2⟩ stagedGrid22 :=
  claim_C1 ⟨2, 2⟩ stagedGrid22 (by decide) (by decide) (by decide) (by decide)


end ChainReaction
